import Mathlib

/-!
Shallow embedding of the wildfire reinforcement-learning simulation
(model.py, agents.py) and proofs of the specification claims.

Modelling conventions:
* Python ints are `ℤ` (coordinates, radii) or `ℕ` (timers, counters that
  are only ever non-negative).
* Python floats are `ℚ`.  All float constants appearing in the source
  (0.1, 0.9, 0.2, 0.02, 10, 5, -2) and every arithmetic combination the
  claims inspect are exactly representable, and the one threshold product
  the code computes, `150*150*0.02`, is exactly `450.0` in IEEE double
  arithmetic, so the rational embedding agrees with the float code on the
  program's states.
* `math.sqrt(dx**2+dy**2) <= r` (and `> r`) on integer inputs with small
  integer `r` is embedded as `dx^2+dy^2 ≤ r^2` (resp. `>`): `sqrt` is
  correctly rounded and the nearest integer-root boundary is at least
  `1/(2r+1)` away except at exact squares, where `sqrt` is exact, so the
  float comparisons agree with the integer ones.
* Python list indexing `l[i]` wraps negative indices and raises
  `IndexError` for `|i|` at or beyond the length; `pyListGet` returns
  `Option`, `none` standing for the raised error.  The grid operations
  whose every access is bounds-guarded in the source are embedded with the
  total `gridGet`/`gridSet` (out-of-range reads defaulting to `empty`,
  out-of-range writes a no-op; neither case is reachable from the guarded
  call sites).  `Environment.add_agent`, whose first grid access is NOT
  guarded, is embedded `Option`-valued via `pyListGet` so that the raised
  `IndexError` is observable.
* The two sources of randomness (epsilon-greedy action choice,
  `random.shuffle` / `random.choice` during construction) are factored
  out as explicit oracle parameters: the chosen action is an argument of
  `Agent.stepWith`, the shuffled position order and the sequence of draw
  indices are arguments of `Env.create`.
* Python `set` objects (`fire_cells`, the spread front) are embedded as
  duplicate-free lists; insertion order is a modelling artifact, and no
  claim depends on it.
* The shared Q-table is held in each agent record; since agents act
  strictly sequentially and no claim inspects Q-values of a second agent,
  per-record storage is observationally equivalent to the shared dict.
-/

namespace Wildfire

/-- Cell states of the grid: " " (empty/burned), "T" (tree), "F" (fire),
"A" (agent occupancy marker). -/
inductive Cell : Type
  | empty
  | tree
  | fire
  | agentMark
  deriving DecidableEq, Repr

/-- The grid is stored row-major exactly like the Python list of lists:
the cell the source writes `grid[y][x]` is `(g.get y).get x`. -/
abbrev Grid : Type := List (List Cell)

/-- GRID_SIZE = 150 (model.py line 4). -/
def GRID_SIZE : ℤ := 150

/-- Python indexing semantics on a list of length `n`: indices in
`[0, n)` are used directly, indices in `[-n, 0)` wrap, anything else
raises `IndexError` (here: `none`). -/
def wrapIdx (n : ℕ) (i : ℤ) : Option ℕ :=
  if 0 ≤ i ∧ i < (n : ℤ) then some i.toNat
  else if -(n : ℤ) ≤ i ∧ i < 0 then some (i + n).toNat
  else none

/-- Python `l[i]` as a partial operation. -/
def pyListGet {α : Type} (l : List α) (i : ℤ) : Option α :=
  (wrapIdx l.length i).bind (fun j => l[j]?)

/-- Resolve the pair of physical indices that Python `grid[y][x]` touches
(row index first in the pair's second slot). -/
def gridResolve (g : Grid) (x y : ℤ) : Option (ℕ × ℕ) :=
  (wrapIdx g.length y).bind (fun ry =>
    (wrapIdx (g.getD ry []).length x).map (fun rx => (rx, ry)))

/-- Total read of `grid[y][x]`; out-of-range reads default to `empty`.
Every read site in the source except the first line of `add_agent` is
dominated by a bounds check, so the default is never observed there. -/
def gridGet (g : Grid) (x y : ℤ) : Cell :=
  match gridResolve g x y with
  | none => Cell.empty
  | some (rx, ry) => (g.getD ry []).getD rx Cell.empty

/-- Total write of `grid[y][x] = c`; out-of-range writes are a no-op
(unreachable from the guarded write sites in the source). -/
def gridSet (g : Grid) (x y : ℤ) (c : Cell) : Grid :=
  match gridResolve g x y with
  | none => g
  | some (rx, ry) => g.set ry ((g.getD ry []).set rx c)

/-- Python `range(a, b)` over the integers. -/
def intRange (a b : ℤ) : List ℤ :=
  (List.range (b - a).toNat).map (fun (i : ℕ) => a + (i : ℤ))

/-- The six actions, in the order of the ACTIONS list (agents.py line 4). -/
inductive Action : Type
  | up
  | down
  | left
  | right
  | extinguish
  | stay
  deriving DecidableEq, Repr

/-- State key used by the Q-table: coarse position plus the tuple of
relative fire offsets (agents.py `get_state`). -/
abbrev AState : Type := ℤ × ℤ × List (ℤ × ℤ)

/-- A Q-table row: one stored value per action. -/
abbrev QRow : Type := Action → ℚ

/-- Q-table: Python dict from state to per-action dict. -/
abbrev QTable : Type := List (AState × QRow)

/-- FirefighterAgent (agents.py lines 6-16); `q_table` starts empty,
`alpha = 0.1`, `gamma = 0.9`, `epsilon = 0.2` (epsilon only feeds the
random action choice, which is factored out as an oracle). -/
structure Agent : Type where
  x : ℤ
  y : ℤ
  extinguishing_radius : ℤ
  q_table : QTable
  alpha : ℚ
  gamma : ℚ
  epsilon : ℚ
  last_reward : ℚ
  extinguished_count : ℕ

/-- Environment (model.py lines 6-27).  `spread_timer` and
`spread_delay` are `ℕ` (the source clamps the delay to at least 1 and the
timer counts up from 0). -/
structure Env : Type where
  grid_width : ℤ
  grid_height : ℤ
  grid : Grid
  fire_spread_radius : ℤ
  spread_delay : ℕ
  spread_timer : ℕ
  fire_cells : List (ℤ × ℤ)
  agents : List Agent

namespace Env

/-- Environment.in_bounds (model.py lines 141-143). -/
def in_bounds (e : Env) (x y : ℤ) : Bool :=
  decide (0 ≤ x ∧ x < e.grid_width ∧ 0 ≤ y ∧ y < e.grid_height)

/-- Environment._ignite_tree (model.py lines 73-77): convert a tree to
fire and record it in the fire set. -/
def igniteTree (e : Env) (x y : ℤ) : Env :=
  if gridGet e.grid x y = Cell.tree then
    { e with
      grid := gridSet e.grid x y Cell.fire
      fire_cells :=
        if (x, y) ∈ e.fire_cells then e.fire_cells else (x, y) :: e.fire_cells }
  else e

/-- Environment.extinguish (model.py lines 145-151): returns the Python
return value together with the updated state. -/
def extinguish (e : Env) (x y : ℤ) : Bool × Env :=
  if (x, y) ∈ e.fire_cells then
    (true,
     { e with
       grid := gridSet e.grid x y Cell.empty
       fire_cells := e.fire_cells.erase (x, y) })
  else (false, e)

/-- Row-by-row tree count with early exit, the loop body of
`fire_engulfed` (model.py lines 158-164). -/
def engulfedAux (threshold : ℚ) : List (List Cell) → ℕ → Bool
  | [], _ => true
  | row :: rest, acc =>
      let t := acc + row.count Cell.tree
      if threshold ≤ (t : ℚ) then false else engulfedAux threshold rest t

/-- Environment.fire_engulfed (model.py lines 153-164).  The float
product `self.grid_width * self.grid_height * 0.02` is embedded exactly;
at the program's fixed 150 by 150 size the float value is exactly 450. -/
def fire_engulfed (e : Env) : Bool :=
  engulfedAux ((e.grid_width : ℚ) * (e.grid_height : ℚ) * (1 / 50)) e.grid 0

/-- Environment._get_trees_in_radius (model.py lines 79-91): all trees
within the circular spread radius, scanned dy-outer / dx-inner. -/
def treesInRadius (e : Env) (x y : ℤ) : List (ℤ × ℤ) :=
  (intRange (-e.fire_spread_radius) (e.fire_spread_radius + 1)).flatMap
    (fun dy =>
      (intRange (-e.fire_spread_radius) (e.fire_spread_radius + 1)).filterMap
        (fun dx =>
          let nx := x + dx
          let ny := y + dy
          if 0 ≤ nx ∧ nx < e.grid_width ∧ 0 ≤ ny ∧ ny < e.grid_height ∧
              dx ^ 2 + dy ^ 2 ≤ e.fire_spread_radius ^ 2 ∧
              gridGet e.grid nx ny = Cell.tree then
            some (nx, ny)
          else none))

end Env

/-- Total tree count of a grid (used to state the `fire_engulfed`
claims; the source computes the same quantity incrementally). -/
def treeCount (g : Grid) : ℕ :=
  (g.map (fun row => row.count Cell.tree)).sum

-- Basic facts about the grid primitives.

theorem wrapIdx_of_nonneg_lt {n : ℕ} {i : ℤ} (h0 : 0 ≤ i) (h1 : i < (n : ℤ)) :
    wrapIdx n i = some i.toNat := by
  unfold wrapIdx
  simp [h0, h1]

theorem wrapIdx_isSome_iff {n : ℕ} {i : ℤ} :
    (wrapIdx n i).isSome ↔ -(n : ℤ) ≤ i ∧ i < (n : ℤ) := by
  unfold wrapIdx
  by_cases h1 : 0 ≤ i ∧ i < (n : ℤ)
  · simp [h1]
    omega
  · simp only [h1, if_false]
    by_cases h2 : -(n : ℤ) ≤ i ∧ i < 0
    · simp [h2]
      omega
    · simp [h2]
      omega

theorem gridSet_length (g : Grid) (x y : ℤ) (c : Cell) :
    (gridSet g x y c).length = g.length := by
  unfold gridSet
  cases gridResolve g x y with
  | none => rfl
  | some p => simp

theorem mem_gridSet {g : Grid} {x y : ℤ} {c : Cell} {row : List Cell}
    (h : row ∈ gridSet g x y c) :
    row ∈ g ∨ ∃ r, r ∈ g ∧ ∃ i, row = r.set i c := by
  unfold gridSet at h
  cases hr : gridResolve g x y with
  | none => rw [hr] at h; exact Or.inl h
  | some p =>
      obtain ⟨rx, ry⟩ := p
      rw [hr] at h
      dsimp only at h
      rcases List.mem_or_eq_of_mem_set h with h' | h'
      · exact Or.inl h'
      · by_cases hlt : ry < g.length
        · right
          refine ⟨g.getD ry [], ?_, rx, h'⟩
          have : g.getD ry [] = g[ry] := by
            simp [List.getD_eq_getElem?_getD, List.getElem?_eq_getElem hlt]
          rw [this]
          exact List.getElem_mem hlt
        · left
          rw [List.set_eq_of_length_le (by omega)] at h
          exact h

theorem gridSet_row_length (g : Grid) (x y : ℤ) (c : Cell) (row : List Cell)
    (h : row ∈ gridSet g x y c) (hall : ∀ r ∈ g, r.length = 150) :
    row.length = 150 := by
  rcases mem_gridSet h with h' | ⟨r, hr, i, hrow⟩
  · exact hall _ h'
  · rw [hrow]
    simp [hall _ hr]

theorem wrapIdx_lt {n : ℕ} {i : ℤ} {j : ℕ} (h : wrapIdx n i = some j) : j < n := by
  unfold wrapIdx at h
  by_cases h1 : 0 ≤ i ∧ i < (n : ℤ)
  · simp [h1] at h
    omega
  · simp only [h1, if_false] at h
    by_cases h2 : -(n : ℤ) ≤ i ∧ i < 0
    · simp [h2] at h
      omega
    · simp [h2] at h

theorem getD_set_self {α : Type} (l : List α) (i : ℕ) (a d : α) (h : i < l.length) :
    (l.set i a).getD i d = a := by
  simp [List.getD_eq_getElem?_getD, List.getElem?_set_self', List.getElem?_eq_getElem h]

theorem getD_set_ne {α : Type} (l : List α) {i j : ℕ} (a d : α) (h : i ≠ j) :
    (l.set i a).getD j d = l.getD j d := by
  simp [List.getD_eq_getElem?_getD, List.getElem?_set_ne h]

theorem getD_length_set (g : Grid) (ry k : ℕ) (r' : List Cell)
    (hlen : r'.length = (g.getD ry []).length) :
    ((g.set ry r').getD k []).length = (g.getD k []).length := by
  by_cases hk : k = ry
  · subst hk
    by_cases hlt : k < g.length
    · rw [getD_set_self _ _ _ _ hlt, hlen]
    · rw [List.set_eq_of_length_le (by omega)]
  · rw [getD_set_ne _ _ _ (fun h => hk h.symm)]

theorem gridResolve_gridSet (g : Grid) (x y u v : ℤ) (c : Cell) :
    gridResolve (gridSet g x y c) u v = gridResolve g u v := by
  unfold gridSet
  cases hxy : gridResolve g x y with
  | none => rfl
  | some p =>
      obtain ⟨rx, ry⟩ := p
      dsimp only
      have hry : ry < g.length := by
        unfold gridResolve at hxy
        cases hw : wrapIdx g.length y with
        | none => rw [hw] at hxy; simp at hxy
        | some j =>
            rw [hw] at hxy
            simp only [Option.some_bind] at hxy
            cases hw2 : wrapIdx (g.getD j []).length x with
            | none => rw [hw2] at hxy; simp at hxy
            | some k =>
                rw [hw2] at hxy
                simp only [Option.map_some'] at hxy
                cases hxy
                exact wrapIdx_lt hw
      have hrx : rx < (g.getD ry []).length := by
        unfold gridResolve at hxy
        cases hw : wrapIdx g.length y with
        | none => rw [hw] at hxy; simp at hxy
        | some j =>
            rw [hw] at hxy
            simp only [Option.some_bind] at hxy
            cases hw2 : wrapIdx (g.getD j []).length x with
            | none => rw [hw2] at hxy; simp at hxy
            | some k =>
                rw [hw2] at hxy
                simp only [Option.map_some'] at hxy
                cases hxy
                exact wrapIdx_lt hw2
      unfold gridResolve
      rw [List.length_set]
      cases hwv : wrapIdx g.length v with
      | none => rfl
      | some ry' =>
          simp only [Option.some_bind]
          rw [getD_length_set g ry ry' _ (by simp)]

theorem gridGet_gridSet (g : Grid) (x y u v : ℤ) (c : Cell) :
    gridGet (gridSet g x y c) u v =
      if (gridResolve g x y).isSome ∧ gridResolve g u v = gridResolve g x y then c
      else gridGet g u v := by
  unfold gridGet
  rw [gridResolve_gridSet]
  cases hxy : gridResolve g x y with
  | none =>
      simp only [Option.isSome_none, Bool.false_eq_true, false_and, if_false]
      unfold gridSet
      rw [hxy]
  | some p =>
      obtain ⟨rx, ry⟩ := p
      have hry : ry < g.length := by
        unfold gridResolve at hxy
        cases hw : wrapIdx g.length y with
        | none => rw [hw] at hxy; simp at hxy
        | some j =>
            rw [hw] at hxy
            simp only [Option.some_bind] at hxy
            cases hw2 : wrapIdx (g.getD j []).length x with
            | none => rw [hw2] at hxy; simp at hxy
            | some k =>
                rw [hw2] at hxy
                simp only [Option.map_some'] at hxy
                cases hxy
                exact wrapIdx_lt hw
      have hrx : rx < (g.getD ry []).length := by
        unfold gridResolve at hxy
        cases hw : wrapIdx g.length y with
        | none => rw [hw] at hxy; simp at hxy
        | some j =>
            rw [hw] at hxy
            simp only [Option.some_bind] at hxy
            cases hw2 : wrapIdx (g.getD j []).length x with
            | none => rw [hw2] at hxy; simp at hxy
            | some k =>
                rw [hw2] at hxy
                simp only [Option.map_some'] at hxy
                cases hxy
                exact wrapIdx_lt hw2
      have hset : gridSet g x y c = g.set ry ((g.getD ry []).set rx c) := by
        unfold gridSet
        rw [hxy]
      rw [hset]
      cases huv : gridResolve g u v with
      | none => simp
      | some q =>
          obtain ⟨qx, qy⟩ := q
          dsimp only
          by_cases heq : qy = ry ∧ qx = rx
          · obtain ⟨h1, h2⟩ := heq
            subst h1; subst h2
            simp only [Option.isSome_some, Option.some.injEq, Prod.mk.injEq,
              and_self, if_true, true_and]
            rw [getD_set_self _ _ _ _ hry, getD_set_self _ _ _ _ hrx]
          · have hne : ¬((qx, qy) = (rx, ry)) := by
              intro hcon
              apply heq
              cases hcon
              exact ⟨rfl, rfl⟩
            simp only [Option.isSome_some, Option.some.injEq, hne, and_false,
              if_false, true_and]
            by_cases hqy : qy = ry
            · subst hqy
              have hqx : qx ≠ rx := by
                intro hcon
                exact heq ⟨rfl, hcon⟩
              rw [getD_set_self _ _ _ _ hry, getD_set_ne _ _ _ (fun h => hqx h.symm)]
            · rw [getD_set_ne _ _ _ (fun h => hqy h.symm)]

/-- Well-formed 150 by 150 grid list. -/
def WFg (g : Grid) : Prop :=
  g.length = 150 ∧ ∀ r ∈ g, r.length = 150

/-- Well-formed dimensions: the fields record the fixed 150 by 150 grid
that every Environment the program constructs carries. -/
def WF (e : Env) : Prop :=
  e.grid_width = 150 ∧ e.grid_height = 150 ∧ WFg e.grid

/-- In-bounds predicate on a coordinate pair (relative to the program's
fixed 150 by 150 grid). -/
def InB (p : ℤ × ℤ) : Prop :=
  0 ≤ p.1 ∧ p.1 < 150 ∧ 0 ≤ p.2 ∧ p.2 < 150

instance : DecidablePred InB := fun p => by unfold InB; infer_instance

theorem gridResolve_inb {g : Grid} (hg : g.length = 150)
    (hall : ∀ r ∈ g, r.length = 150) {x y : ℤ} (h : InB (x, y)) :
    gridResolve g x y = some (x.toNat, y.toNat) := by
  have h1 : 0 ≤ x := h.1
  have h2 : x < 150 := h.2.1
  have h3 : 0 ≤ y := h.2.2.1
  have h4 : y < 150 := h.2.2.2
  unfold gridResolve
  rw [wrapIdx_of_nonneg_lt h3 (by rw [hg]; exact_mod_cast h4)]
  simp only [Option.some_bind]
  have hmem : g.getD y.toNat [] ∈ g := by
    have hlt : y.toNat < g.length := by omega
    have : g.getD y.toNat [] = g[y.toNat] := by
      simp [List.getD_eq_getElem?_getD, List.getElem?_eq_getElem hlt]
    rw [this]
    exact List.getElem_mem hlt
  rw [wrapIdx_of_nonneg_lt h1 (by rw [hall _ hmem]; exact_mod_cast h2)]
  rfl

theorem gridGet_set_same {g : Grid} (hg : g.length = 150)
    (hall : ∀ r ∈ g, r.length = 150) {x y : ℤ} (h : InB (x, y)) (c : Cell) :
    gridGet (gridSet g x y c) x y = c := by
  rw [gridGet_gridSet]
  rw [gridResolve_inb hg hall h]
  simp

theorem gridGet_set_ne {g : Grid} (hg : g.length = 150)
    (hall : ∀ r ∈ g, r.length = 150) {x y u v : ℤ} (hxy : InB (x, y))
    (huv : InB (u, v)) (hne : (u, v) ≠ (x, y)) (c : Cell) :
    gridGet (gridSet g x y c) u v = gridGet g u v := by
  rw [gridGet_gridSet]
  rw [gridResolve_inb hg hall hxy, gridResolve_inb hg hall huv]
  have : ¬((u.toNat, v.toNat) = (x.toNat, y.toNat)) := by
    intro hcon
    apply hne
    have h1 : 0 ≤ x := hxy.1
    have h3 : 0 ≤ y := hxy.2.2.1
    have h5 : 0 ≤ u := huv.1
    have h7 : 0 ≤ v := huv.2.2.1
    injection hcon with ha hb
    have hux : u = x := by omega
    have hvy : v = y := by omega
    rw [hux, hvy]
  simp [this]

/-- Writing a non-fire value over a non-fire cell never changes where
fire sits in the grid (used for agent occupancy marks and tree
placement). -/
theorem gridGet_set_preserves_fire {g : Grid} {x y : ℤ} {c : Cell}
    (hc : c ≠ Cell.fire) (hcell : gridGet g x y ≠ Cell.fire) (u v : ℤ) :
    (gridGet (gridSet g x y c) u v = Cell.fire ↔ gridGet g u v = Cell.fire) := by
  rw [gridGet_gridSet]
  by_cases hcond : (gridResolve g x y).isSome ∧ gridResolve g u v = gridResolve g x y
  · rw [if_pos hcond]
    have : gridGet g u v = gridGet g x y := by
      unfold gridGet
      rw [hcond.2]
    rw [this]
    constructor
    · intro h; exact absurd h hc
    · intro h; exact absurd h hcell
  · rw [if_neg hcond]

/-- Writing any non-tree value never creates a tree. -/
theorem gridGet_set_no_new_tree {g : Grid} {x y : ℤ} {c : Cell}
    (hc : c ≠ Cell.tree) (u v : ℤ)
    (h : gridGet (gridSet g x y c) u v = Cell.tree) : gridGet g u v = Cell.tree := by
  rw [gridGet_gridSet] at h
  by_cases hcond : (gridResolve g x y).isSome ∧ gridResolve g u v = gridResolve g x y
  · rw [if_pos hcond] at h
    exact absurd h hc
  · rw [if_neg hcond] at h
    exact h

-- Q-table operations (agents.py).

/-- Dict lookup `q_table[s]`. -/
def qFind (t : QTable) (s : AState) : Option QRow :=
  (t.find? (fun e => decide (e.1 = s))).map Prod.snd

/-- Python `q_table.setdefault(s, {a: 0 for a in ACTIONS})`. -/
def qSetdefault (t : QTable) (s : AState) : QTable :=
  if (t.find? (fun e => decide (e.1 = s))).isSome then t
  else (s, fun _ => 0) :: t

/-- Python `q_table[s][a] = v`. -/
def qAssign (t : QTable) (s : AState) (a : Action) (v : ℚ) : QTable :=
  t.map (fun e => if e.1 = s then (e.1, fun a' => if a' = a then v else e.2 a') else e)

/-- Python `max(q_table[s].values())`: the row always holds exactly the
six actions. -/
def rowMax (r : QRow) : ℚ :=
  r Action.up ⊔ r Action.down ⊔ r Action.left ⊔ r Action.right ⊔
    r Action.extinguish ⊔ r Action.stay

namespace Agent

/-- FirefighterAgent.get_state (agents.py lines 18-30): coarse position
plus relative offsets of fires in the 5 by 5 window, dx-outer scan. -/
def getState (e : Env) (ag : Agent) : AState :=
  let dirs := ([-2, -1, 0, 1, 2] : List ℤ).flatMap (fun dx =>
    ([-2, -1, 0, 1, 2] : List ℤ).filterMap (fun dy =>
      if dx = 0 ∧ dy = 0 then none
      else
        let nx := ag.x + dx
        let ny := ag.y + dy
        if e.in_bounds nx ny = true ∧ (nx, ny) ∈ e.fire_cells then some (dx, dy)
        else none))
  (ag.x.fdiv 10, ag.y.fdiv 10, dirs)

/-- FirefighterAgent._get_fires_in_radius (agents.py lines 32-43):
dx-outer scan of the square, filtered by the circular distance. -/
def firesInRadius (e : Env) (x y r : ℤ) : List (ℤ × ℤ) :=
  (intRange (-r) (r + 1)).flatMap (fun dx =>
    (intRange (-r) (r + 1)).filterMap (fun dy =>
      if r ^ 2 < dx ^ 2 + dy ^ 2 then none
      else
        let nx := x + dx
        let ny := y + dy
        if e.in_bounds nx ny = true ∧ (nx, ny) ∈ e.fire_cells then some (nx, ny)
        else none))

/-- FirefighterAgent.update_q (agents.py lines 54-64). -/
def updateQ (ag : Agent) (s : AState) (a : Action) (reward : ℚ) (s' : AState) :
    Agent :=
  let t1 := qSetdefault ag.q_table s
  let t2 := qSetdefault t1 s'
  let oldq := ((qFind t2 s).getD (fun _ => 0)) a
  let maxNext := rowMax ((qFind t2 s').getD (fun _ => 0))
  let newq := oldq + ag.alpha * (reward + ag.gamma * maxNext - oldq)
  { ag with q_table := qAssign t2 s a newq, last_reward := reward }

/-- Position delta of each action (agents.py lines 79-89). -/
def delta : Action → ℤ × ℤ
  | Action.up => (0, -1)
  | Action.down => (0, 1)
  | Action.left => (-1, 0)
  | Action.right => (1, 0)
  | _ => (0, 0)

/-- The EXTINGUISH loop body (agents.py lines 91-98): one pass over the
initial radius sweep, threading the environment, accumulating reward,
counter and the `extinguished` flag. -/
def extinguishSweep (x y r : ℤ) :
    Env → List (ℤ × ℤ) → ℚ → ℕ → Bool → Env × ℚ × ℕ × Bool
  | e, [], reward, cnt, flag => (e, reward, cnt, flag)
  | e, f :: rest, reward, cnt, flag =>
      let res := e.extinguish f.1 f.2
      if res.1 then
        extinguishSweep x y r res.2 rest
          (reward + 10 + 5 * ((firesInRadius res.2 x y r).length : ℚ))
          (cnt + 1) true
      else extinguishSweep x y r res.2 rest reward cnt flag

/-- FirefighterAgent.step (agents.py lines 75-109) with the
epsilon-greedy `choose_action` factored out: `a` is the action the
random policy chose for this step.  Returns the updated environment and
the updated agent. -/
def stepWith (a : Action) (e : Env) (ag : Agent) : Env × Agent :=
  let s := getState e ag
  let triple :=
    match a with
    | Action.extinguish =>
        let fires := firesInRadius e ag.x ag.y ag.extinguishing_radius
        let res := extinguishSweep ag.x ag.y ag.extinguishing_radius e fires
          (-(1 / 10)) ag.extinguished_count false
        (res.1, if res.2.2.2 then res.2.1 else -2, res.2.2.1)
    | _ => (e, -(1 / 10), ag.extinguished_count)
  let e1 := triple.1
  let reward := triple.2.1
  let cnt := triple.2.2
  let dx := (delta a).1
  let dy := (delta a).2
  let nx := ag.x + dx
  let ny := ag.y + dy
  let pos :=
    if e1.in_bounds nx ny = true ∧ gridGet e1.grid nx ny ≠ Cell.tree then (nx, ny)
    else (ag.x, ag.y)
  let ag1 := { ag with x := pos.1, y := pos.2, extinguished_count := cnt }
  let s' := getState e1 ag1
  (e1, updateQ ag1 s a reward s')

end Agent

namespace Env

/-- Clearing phase of Environment.step (model.py lines 98-100): drop the
occupancy marker under each agent. -/
def clearMarks (e : Env) : Env :=
  { e with
    grid := e.agents.foldl
      (fun g a =>
        if gridGet g a.x a.y = Cell.agentMark then gridSet g a.x a.y Cell.empty
        else g)
      e.grid }

/-- Agent turn phase of Environment.step (model.py lines 103-104): each
agent completes its full decide-act-learn cycle in list order; the i-th
agent takes the action `acts i`. -/
def turnsFold (acts : ℕ → Action) : Env → List Agent → ℕ → Env × List Agent
  | e, [], _ => (e, [])
  | e, a :: rest, i =>
      let res := Agent.stepWith (acts i) e a
      let res' := turnsFold acts res.1 rest (i + 1)
      (res'.1, res.2 :: res'.2)

/-- Occupancy re-mark phase of Environment.step (model.py lines
107-109). -/
def markOccupancy (e : Env) : Env :=
  { e with
    grid := e.agents.foldl
      (fun g a =>
        if e.in_bounds a.x a.y = true ∧ gridGet g a.x a.y = Cell.empty then
          gridSet g a.x a.y Cell.agentMark
        else g)
      e.grid }

/-- Timer bump plus the three agent-related phases of Environment.step,
in source order (timer increment is the first statement of `step`). -/
def agentPhase (acts : ℕ → Action) (e : Env) : Env :=
  let e1 := clearMarks { e with spread_timer := e.spread_timer + 1 }
  let res := turnsFold acts e1 e1.agents 0
  markOccupancy { res.1 with agents := res.2 }

/-- The spread front (model.py lines 114-118): union over all fire cells
of the trees in spread radius, as a duplicate-free list. -/
def newFires (e : Env) : List (ℤ × ℤ) :=
  e.fire_cells.foldl
    (fun acc q =>
      (e.treesInRadius q.1 q.2).foldl
        (fun acc2 p => if p ∈ acc2 then acc2 else acc2 ++ [p]) acc)
    []

/-- Ignite every coordinate of the list in order (model.py lines
120-121). -/
def igniteList (e : Env) (l : List (ℤ × ℤ)) : Env :=
  l.foldl (fun e' p => e'.igniteTree p.1 p.2) e

/-- The timer-gated spread event (model.py lines 112-121): reset the
timer and ignite every tree the fire front reaches. -/
def doSpread (e : Env) : Env :=
  igniteList { e with spread_timer := 0 } (newFires e)

/-- Environment.step (model.py lines 93-121), with the i-th agent's
action supplied by the oracle `acts`. -/
def stepWith (acts : ℕ → Action) (e : Env) : Env :=
  let m := agentPhase acts e
  if m.spread_delay ≤ m.spread_timer then doSpread m else m

/-- Expanding-square search of add_agent (model.py lines 131-139):
radii 1 through 9, full square per radius, dx-outer / dy-inner, first
empty in-bounds cell wins. -/
def relocationTarget (e : Env) (ax ay : ℤ) : Option (ℤ × ℤ) :=
  (intRange 1 10).findSome? (fun radius =>
    ((intRange (-radius) (radius + 1)).flatMap (fun dx =>
      (intRange (-radius) (radius + 1)).map (fun dy => (ax + dx, ay + dy)))).find?
      (fun p => e.in_bounds p.1 p.2 && decide (gridGet e.grid p.1 p.2 = Cell.empty)))

/-- Environment.add_agent (model.py lines 124-139).  The very first
statement indexes `grid[agent.y][agent.x]` with no bounds guard; that
read is embedded with Python's partial indexing, and `none` is the
IndexError it raises on an out-of-range request. -/
def addAgent (e : Env) (a : Agent) : Option Env :=
  match (pyListGet e.grid a.y).bind (fun row => pyListGet row a.x) with
  | none => none
  | some c =>
      if c = Cell.empty then
        some { e with
          agents := e.agents ++ [a]
          grid := gridSet e.grid a.x a.y Cell.agentMark }
      else
        match relocationTarget e a.x a.y with
        | some p =>
            some { e with
              agents := e.agents ++ [{ a with x := p.1, y := p.2 }]
              grid := gridSet e.grid p.1 p.2 Cell.agentMark }
        | none => some e

-- Environment construction (model.py lines 6-71).

/-- The 3 by 3 spacing check of _place_spaced_trees (model.py lines
41-51): the position is usable iff no in-bounds neighbour holds a tree. -/
def canPlaceTree (g : Grid) (x y : ℤ) : Bool :=
  ([-1, 0, 1] : List ℤ).all (fun dx =>
    ([-1, 0, 1] : List ℤ).all (fun dy =>
      let nx := x + dx
      let ny := y + dy
      !(decide (0 ≤ nx ∧ nx < GRID_SIZE ∧ 0 ≤ ny ∧ ny < GRID_SIZE) &&
        decide (gridGet g nx ny = Cell.tree))))

/-- The placement loop of _place_spaced_trees (model.py lines 37-55)
over the shuffled position order, stopping at the density target. -/
def placeTreesGo (target : ℕ) : Grid → List (ℤ × ℤ) → ℕ → Grid
  | g, [], _ => g
  | g, p :: rest, placed =>
      if target ≤ placed then g
      else if canPlaceTree g p.1 p.2 then
        placeTreesGo target (gridSet g p.1 p.2 Cell.tree) rest (placed + 1)
      else placeTreesGo target g rest placed

/-- The canonical position enumeration `[(x, y) for y in range(N) for x
in range(N)]` (model.py line 31); `random.shuffle` permutes it. -/
def allPositions : List (ℤ × ℤ) :=
  (intRange 0 GRID_SIZE).flatMap (fun y => (intRange 0 GRID_SIZE).map (fun x => (x, y)))

/-- The tree-location scan of _start_fires (model.py lines 59-60): the
comprehension `[(x, y) for y in range(N) for x in range(N) if
grid[y][x] == "T"]`. -/
def treeLocations (e : Env) : List (ℤ × ℤ) :=
  (intRange 0 GRID_SIZE).flatMap (fun y =>
    (intRange 0 GRID_SIZE).filterMap (fun x =>
      if gridGet e.grid x y = Cell.tree then some (x, y) else none))

/-- The draw loop of _start_fires (model.py lines 63-71).  Each element
of `picks` is one `random.choice` draw, given as an index into the tree
locations (reduced mod the length, so every draw is a member as in
Python); the loop also stops if the supplied draw sequence runs out,
which only truncates the trace. -/
def startFiresGo (numTarget : ℕ) (locs : List (ℤ × ℤ)) :
    Env → List ℕ → ℕ → List (ℤ × ℤ) → Env
  | e, [], _, _ => e
  | e, k :: rest, attempts, selected =>
      if selected.length < numTarget ∧ attempts < 100 then
        let p := locs.getD (k % locs.length) (0, 0)
        if decide (∀ s ∈ selected,
            e.fire_spread_radius ^ 2 < (p.1 - s.1) ^ 2 + (p.2 - s.2) ^ 2) = true then
          startFiresGo numTarget locs (e.igniteTree p.1 p.2) rest (attempts + 1)
            (selected ++ [p])
        else startFiresGo numTarget locs e rest (attempts + 1) selected
      else e

/-- Environment._start_fires (model.py lines 57-71). -/
def startFires (e : Env) (numFires : ℕ) (picks : List ℕ) : Env :=
  let locs := treeLocations e
  startFiresGo (min numFires locs.length) locs e picks 0 []

/-- Environment.__init__ (model.py lines 7-27): radius clamped to
[1, 5], delay clamped to at least 1, timer 0, trees placed in the given
shuffle order, then five fires seeded using the given draws. -/
def create (density : ℚ) (radius delay : ℤ) (order : List (ℤ × ℤ))
    (picks : List ℕ) : Env :=
  let g0 : Grid := List.replicate 150 (List.replicate 150 Cell.empty)
  let target : ℕ := (⌊(150 : ℚ) * 150 * density⌋).toNat
  let g1 := placeTreesGo target g0 order 0
  let e0 : Env :=
    { grid_width := GRID_SIZE
      grid_height := GRID_SIZE
      grid := g1
      fire_spread_radius := max 1 (min radius 5)
      spread_delay := (max 1 delay).toNat
      spread_timer := 0
      fire_cells := []
      agents := [] }
  startFires e0 5 picks

end Env

-- The early-exit engulfed loop agrees with the total tree count.

theorem engulfedAux_eq_true_iff (th : ℚ) :
    ∀ (g : List (List Cell)) (acc : ℕ), g ≠ [] →
      (Env.engulfedAux th g acc = true ↔ ((acc + treeCount g : ℕ) : ℚ) < th) := by
  intro g
  induction g with
  | nil => intro acc h; exact absurd rfl h
  | cons r rest ih =>
      intro acc _
      unfold Env.engulfedAux
      by_cases hle : th ≤ ((acc + r.count Cell.tree : ℕ) : ℚ)
      · rw [if_pos hle]
        simp only [Bool.false_eq_true, false_iff, not_lt]
        refine le_trans hle ?_
        have : (acc + r.count Cell.tree : ℕ) ≤ acc + treeCount (r :: rest) := by
          unfold treeCount
          simp only [List.map_cons, List.sum_cons]
          omega
        exact_mod_cast this
      · rw [if_neg hle]
        cases rest with
        | nil =>
            unfold Env.engulfedAux
            simp only [true_iff]
            unfold treeCount
            simp only [List.map_cons, List.map_nil, List.sum_cons, List.sum_nil]
            push_cast
            push_cast at hle
            linarith [not_le.mp hle]
        | cons r2 rest2 =>
            rw [ih (acc + r.count Cell.tree) (by simp)]
            have : acc + r.count Cell.tree + treeCount (r2 :: rest2) =
                acc + treeCount (r :: r2 :: rest2) := by
              unfold treeCount
              simp [List.map_cons, List.sum_cons]
              omega
            rw [this]

/-- The characterization of `fire_engulfed` actually enforced by the
code: true iff the remaining tree count is strictly below 2 percent of
the area computed from the stored dimensions (450 for the program's
fixed 150 by 150 grid). -/
theorem fire_engulfed_iff (e : Env) (hne : e.grid ≠ []) :
    e.fire_engulfed = true ↔
      ((treeCount e.grid : ℚ) <
        (e.grid_width : ℚ) * (e.grid_height : ℚ) * (1 / 50)) := by
  unfold Env.fire_engulfed
  rw [engulfedAux_eq_true_iff _ _ 0 hne]
  simp

-- Concrete boundary states for the fire_engulfed claims: 150 by 150
-- grids holding exactly 449 and exactly 450 trees.

/-- A full row of 150 trees. -/
def treeRow : List Cell := List.replicate 150 Cell.tree

/-- A full row of 150 empty cells. -/
def emptyRow : List Cell := List.replicate 150 Cell.empty

/-- The all-empty 150 by 150 grid (the state `__init__` starts from). -/
def emptyGrid : Grid := List.replicate 150 emptyRow

/-- A 150 by 150 grid holding exactly 449 trees. -/
def grid449 : Grid :=
  List.replicate 2 treeRow ++
    [List.replicate 149 Cell.tree ++ [Cell.empty]] ++
    List.replicate 147 emptyRow

/-- A 150 by 150 grid holding exactly 450 trees. -/
def grid450 : Grid :=
  List.replicate 3 treeRow ++ List.replicate 147 emptyRow

/-- Environment state whose grid holds exactly 449 trees. -/
def env449 : Env :=
  { grid_width := 150, grid_height := 150, grid := grid449,
    fire_spread_radius := 3, spread_delay := 30, spread_timer := 0,
    fire_cells := [], agents := [] }

/-- Environment state whose grid holds exactly 450 trees. -/
def env450 : Env :=
  { grid_width := 150, grid_height := 150, grid := grid450,
    fire_spread_radius := 3, spread_delay := 30, spread_timer := 0,
    fire_cells := [], agents := [] }

-- The reward model, stated the way the specification words it: one
-- contribution per successful extinguish event, each recomputing the
-- count of fires still in radius after that event.

/-- For each successful extinguish event of the sweep (in the scan order
of the radius sweep), the number of fire cells still within the
extinguishing radius immediately after that event. -/
def sweepCountsSpec (x y r : ℤ) : Env → List (ℤ × ℤ) → List ℕ
  | _, [] => []
  | e, f :: rest =>
      let res := e.extinguish f.1 f.2
      if res.1 then
        (Agent.firesInRadius res.2 x y r).length :: sweepCountsSpec x y r res.2 rest
      else sweepCountsSpec x y r res.2 rest

/-- The specification's reward model: baseline -0.1 every step; for an
EXTINGUISH action, each successful event adds 10 plus 5 times the fresh
post-event fire count; an EXTINGUISH with no successful event replaces
the reward by -2; every other action keeps the baseline. -/
def rewardSpec (a : Action) (e : Env) (ag : Agent) : ℚ :=
  match a with
  | Action.extinguish =>
      let counts := sweepCountsSpec ag.x ag.y ag.extinguishing_radius e
        (Agent.firesInRadius e ag.x ag.y ag.extinguishing_radius)
      if counts = [] then -2
      else -(1 / 10) + (counts.map (fun k => (10 : ℚ) + 5 * (k : ℕ))).sum
  | _ => -(1 / 10)

theorem extinguishSweep_reward (x y r : ℤ) :
    ∀ (fires : List (ℤ × ℤ)) (e : Env) (racc : ℚ) (cnt : ℕ) (flag : Bool),
      (Agent.extinguishSweep x y r e fires racc cnt flag).2.1 =
        racc + ((sweepCountsSpec x y r e fires).map
          (fun k => (10 : ℚ) + 5 * (k : ℕ))).sum ∧
      ((Agent.extinguishSweep x y r e fires racc cnt flag).2.2.2 =
        (flag || !(sweepCountsSpec x y r e fires).isEmpty)) := by
  intro fires
  induction fires with
  | nil =>
      intro e racc cnt flag
      unfold Agent.extinguishSweep sweepCountsSpec
      simp
  | cons f rest ih =>
      intro e racc cnt flag
      unfold Agent.extinguishSweep sweepCountsSpec
      by_cases hok : (e.extinguish f.1 f.2).1 = true
      · rw [if_pos hok, if_pos hok]
        obtain ⟨ih1, ih2⟩ := ih (e.extinguish f.1 f.2).2
          (racc + 10 + 5 * ((Agent.firesInRadius (e.extinguish f.1 f.2).2 x y r).length : ℚ))
          (cnt + 1) true
        constructor
        · rw [ih1]
          simp only [List.map_cons, List.sum_cons]
          ring
        · rw [ih2]
          simp
      · rw [if_neg hok, if_neg hok]
        exact ih (e.extinguish f.1 f.2).2 racc cnt flag

/-- The reward recorded by an agent step (the value `update_q` stores in
`last_reward`, which is exactly the reward used for that step's
Q-update) equals the specification's reward model. -/
theorem stepWith_last_reward (a : Action) (e : Env) (ag : Agent) :
    (Agent.stepWith a e ag).2.last_reward = rewardSpec a e ag := by
  cases a with
  | extinguish =>
      show (if (Agent.extinguishSweep ag.x ag.y ag.extinguishing_radius e
          (Agent.firesInRadius e ag.x ag.y ag.extinguishing_radius)
          (-(1 / 10)) ag.extinguished_count false).2.2.2 then
            (Agent.extinguishSweep ag.x ag.y ag.extinguishing_radius e
              (Agent.firesInRadius e ag.x ag.y ag.extinguishing_radius)
              (-(1 / 10)) ag.extinguished_count false).2.1
          else -2) = _
      obtain ⟨h1, h2⟩ := extinguishSweep_reward ag.x ag.y ag.extinguishing_radius
        (Agent.firesInRadius e ag.x ag.y ag.extinguishing_radius) e
        (-(1 / 10)) ag.extinguished_count false
      rw [h1, h2]
      unfold rewardSpec
      by_cases hc : sweepCountsSpec ag.x ag.y ag.extinguishing_radius e
          (Agent.firesInRadius e ag.x ag.y ag.extinguishing_radius) = []
      · rw [hc]
        simp
      · rw [if_neg hc]
        have : (sweepCountsSpec ag.x ag.y ag.extinguishing_radius e
            (Agent.firesInRadius e ag.x ag.y ag.extinguishing_radius)).isEmpty = false := by
          rw [List.isEmpty_eq_false_iff_exists_mem]
          cases hcs : sweepCountsSpec ag.x ag.y ag.extinguishing_radius e
              (Agent.firesInRadius e ag.x ag.y ag.extinguishing_radius) with
          | nil => exact absurd hcs hc
          | cons a l => exact ⟨a, by simp⟩
        rw [this]
        simp
  | up => rfl
  | down => rfl
  | left => rfl
  | right => rfl
  | stay => rfl

-- The end-to-end extinguish scenario: a single tree at (2,2) converted
-- to fire, one agent standing at (2,2) with extinguishing radius 1,
-- choosing EXTINGUISH.

/-- Grid state with a single tree at (2,2), before ignition. -/
def c1Env0 : Env :=
  { grid_width := 150, grid_height := 150,
    grid := gridSet emptyGrid 2 2 Cell.tree, fire_spread_radius := 3,
    spread_delay := 30, spread_timer := 0, fire_cells := [], agents := [] }

/-- The scenario environment: the tree at (2,2) converted to fire. -/
def c1Env : Env := Env.igniteTree c1Env0 2 2

/-- The scenario agent: at (2,2) with extinguishing radius 1, fresh
counters and an empty Q-table. -/
def c1Agent : Agent :=
  { x := 2, y := 2, extinguishing_radius := 1, q_table := [], alpha := 1 / 10,
    gamma := 9 / 10, epsilon := 1 / 5, last_reward := 0, extinguished_count := 0 }

set_option maxRecDepth 10000 in
theorem c1_sweep_counts :
    sweepCountsSpec c1Agent.x c1Agent.y c1Agent.extinguishing_radius c1Env
      (Agent.firesInRadius c1Env c1Agent.x c1Agent.y c1Agent.extinguishing_radius) =
      [0] := by
  decide

/-- The scenario's recorded reward is exactly 9.9 (the -0.1 baseline
plus 10 plus 5 times the zero fires remaining after the event). -/
theorem c1_last_reward :
    (Agent.stepWith Action.extinguish c1Env c1Agent).2.last_reward = 99 / 10 := by
  rw [stepWith_last_reward]
  unfold rewardSpec
  rw [c1_sweep_counts]
  norm_num

/-- C1, as stated, is false: in the end-to-end scenario (single tree at
(2,2) converted to fire, agent at (2,2) with extinguishing radius 1,
chosen action EXTINGUISH) the reward used for the Q-update is 9.9, not
15, so the claimed conjunction fails. -/
theorem claim_C1_counterexample :
    ¬((Agent.stepWith Action.extinguish c1Env c1Agent).1.fire_cells = [] ∧
      (Agent.stepWith Action.extinguish c1Env c1Agent).2.extinguished_count = 1 ∧
      (Agent.stepWith Action.extinguish c1Env c1Agent).2.last_reward = 15) := by
  intro h
  have h3 := h.2.2
  rw [c1_last_reward] at h3
  norm_num at h3

set_option maxRecDepth 10000 in
/-- C1 (amended): in the end-to-end scenario the agent's step leaves
fire_cells empty and extinguished_count at 1, and the reward used for
that step's Q-update is 9.9 = -0.1 + 10 + 5 * 0. -/
theorem claim_C1 :
    (Agent.stepWith Action.extinguish c1Env c1Agent).1.fire_cells = [] ∧
    (Agent.stepWith Action.extinguish c1Env c1Agent).2.extinguished_count = 1 ∧
    (Agent.stepWith Action.extinguish c1Env c1Agent).2.last_reward = 99 / 10 := by
  refine ⟨by decide, by decide, c1_last_reward⟩

/-- C2: on every agent step the recorded reward (the value update_q
stores, i.e. the reward used for the Q-update) follows the
specification's reward model exactly: baseline -0.1; for EXTINGUISH one
contribution of 10 plus 5 times the freshly recomputed post-event fire
count per successful extinguish event, processed in the scan order of
the radius sweep; a full overwrite to -2 when no event succeeds; and
the plain -0.1 baseline for every other action. -/
theorem claim_C2 (a : Action) (e : Env) (ag : Agent) :
    (Agent.stepWith a e ag).2.last_reward = rewardSpec a e ag :=
  stepWith_last_reward a e ag

/-- C5: extinguish(x,y) succeeds exactly on current fire cells.  The
hypotheses (well-formed dimensions, in-bounds duplicate-free fire set)
are the reachable-state invariants established for C7.  On a fire cell
the call returns true, empties the cell, removes the coordinate from the
fire set, and an immediate second call returns false changing nothing;
on a non fire cell the call returns false and the state is unchanged. -/
theorem claim_C5 (e : Env) (x y : ℤ) (hwf : WF e)
    (hfb : ∀ p ∈ e.fire_cells, InB p) (hnd : e.fire_cells.Nodup) :
    ((x, y) ∈ e.fire_cells →
      (e.extinguish x y).1 = true ∧
      gridGet (e.extinguish x y).2.grid x y = Cell.empty ∧
      (e.extinguish x y).2.fire_cells = e.fire_cells.erase (x, y) ∧
      (x, y) ∉ (e.extinguish x y).2.fire_cells ∧
      ((e.extinguish x y).2.extinguish x y).1 = false ∧
      ((e.extinguish x y).2.extinguish x y).2 = (e.extinguish x y).2) ∧
    ((x, y) ∉ e.fire_cells → (e.extinguish x y).1 = false ∧
      (e.extinguish x y).2 = e) := by
  have hnot : (x, y) ∉ e.fire_cells.erase (x, y) := fun hmem2 =>
    ((List.Nodup.mem_erase_iff hnd).mp hmem2).1 rfl
  constructor
  · intro hmem
    have hin : InB (x, y) := hfb _ hmem
    have h1 : e.extinguish x y =
        (true,
         { e with
           grid := gridSet e.grid x y Cell.empty
           fire_cells := e.fire_cells.erase (x, y) }) := by
      unfold Env.extinguish
      rw [if_pos hmem]
    rw [h1]
    have h2 : ({ e with
        grid := gridSet e.grid x y Cell.empty
        fire_cells := e.fire_cells.erase (x, y) } : Env).extinguish x y =
        (false,
         { e with
           grid := gridSet e.grid x y Cell.empty
           fire_cells := e.fire_cells.erase (x, y) }) := by
      unfold Env.extinguish
      rw [if_neg hnot]
    refine ⟨rfl, ?_, rfl, hnot, ?_, ?_⟩
    · exact gridGet_set_same hwf.2.2.1 hwf.2.2.2 hin Cell.empty
    · rw [h2]
    · rw [h2]
  · intro hmem
    unfold Env.extinguish
    rw [if_neg hmem]
    exact ⟨rfl, rfl⟩

/-- Concrete state for the C5 witness: a tree at (3,4) converted to
fire. -/
def c5Env : Env :=
  Env.igniteTree
    { grid_width := 150, grid_height := 150,
      grid := gridSet emptyGrid 3 4 Cell.tree, fire_spread_radius := 3,
      spread_delay := 30, spread_timer := 0, fire_cells := [], agents := [] } 3 4

set_option maxRecDepth 10000 in
/-- C3, as stated, is false on the code: a 150 by 150 state holding
exactly 449 trees — one below the 450 = 0.02 * area boundary — makes
fire_engulfed return true, while the claim asserts it returns false at
the boundary value minus one. -/
theorem claim_C3_counterexample :
    treeCount env449.grid = 449 ∧ env449.fire_engulfed = true := by
  have ht : treeCount env449.grid = 449 := by decide
  refine ⟨ht, ?_⟩
  rw [fire_engulfed_iff env449 (by decide), ht]
  norm_num [env449]

set_option maxRecDepth 10000 in
/-- C3 (amended): fire_engulfed returns true iff the remaining tree
count is strictly below 0.02 * (width * height); at the program's fixed
150 by 150 size it returns false at exactly the boundary value (450
trees) and true at one tree below it (449 trees). -/
theorem claim_C3 :
    (∀ e : Env, e.grid ≠ [] →
      (e.fire_engulfed = true ↔
        (treeCount e.grid : ℚ) <
          (e.grid_width : ℚ) * (e.grid_height : ℚ) * (1 / 50))) ∧
    env450.fire_engulfed = false ∧ env449.fire_engulfed = true := by
  refine ⟨fire_engulfed_iff, ?_, ?_⟩
  · have ht : treeCount env450.grid = 450 := by decide
    cases hb : env450.fire_engulfed with
    | false => rfl
    | true =>
        have h := (fire_engulfed_iff env450 (by decide)).mp hb
        rw [ht] at h
        norm_num [env450] at h
  · have ht : treeCount env449.grid = 449 := by decide
    rw [fire_engulfed_iff env449 (by decide), ht]
    norm_num [env449]

set_option maxRecDepth 10000 in
/-- Witness for C3's quantified part at the concrete 449-tree state. -/
theorem claim_C3_witness :
    env449.fire_engulfed = true ↔
      (treeCount env449.grid : ℚ) <
        (env449.grid_width : ℚ) * (env449.grid_height : ℚ) * (1 / 50) :=
  claim_C3.1 env449 (by decide)

set_option maxRecDepth 10000 in
/-- Witness for C5 at the concrete fire cell (3,4). -/
theorem claim_C5_witness :
    (c5Env.extinguish 3 4).1 = true ∧
    gridGet (c5Env.extinguish 3 4).2.grid 3 4 = Cell.empty ∧
    (c5Env.extinguish 3 4).2.fire_cells = c5Env.fire_cells.erase (3, 4) ∧
    (3, 4) ∉ (c5Env.extinguish 3 4).2.fire_cells ∧
    ((c5Env.extinguish 3 4).2.extinguish 3 4).1 = false ∧
    ((c5Env.extinguish 3 4).2.extinguish 3 4).2 = (c5Env.extinguish 3 4).2 :=
  (claim_C5 c5Env 3 4 (by unfold WF WFg; refine ⟨rfl, rfl, by decide, by decide⟩)
    (by decide) (by decide)).1 (by decide)

-- Preservation lemmas: every state mutation of the simulation preserves
-- the grid dimensions, the non-grid configuration fields, and never
-- writes a tree.

theorem foldl_preserves {α β : Type} {P : β → Prop} {f : β → α → β}
    (hf : ∀ b a, P b → P (f b a)) :
    ∀ (l : List α) (b : β), P b → P (l.foldl f b) := by
  intro l
  induction l with
  | nil => intro b hb; exact hb
  | cons a rest ih => intro b hb; exact ih _ (hf b a hb)

theorem WFg_gridSet {g : Grid} (hg : WFg g) (x y : ℤ) (c : Cell) :
    WFg (gridSet g x y c) := by
  refine ⟨?_, ?_⟩
  · rw [gridSet_length]; exact hg.1
  · intro r hr
    exact gridSet_row_length _ _ _ _ _ hr hg.2

theorem extinguish_proj (e : Env) (x y : ℤ) :
    (e.extinguish x y).2.grid_width = e.grid_width ∧
    (e.extinguish x y).2.grid_height = e.grid_height ∧
    (e.extinguish x y).2.fire_spread_radius = e.fire_spread_radius ∧
    (e.extinguish x y).2.spread_delay = e.spread_delay ∧
    (e.extinguish x y).2.spread_timer = e.spread_timer ∧
    (e.extinguish x y).2.agents = e.agents := by
  unfold Env.extinguish
  by_cases h : (x, y) ∈ e.fire_cells
  · rw [if_pos h]
    exact ⟨rfl, rfl, rfl, rfl, rfl, rfl⟩
  · rw [if_neg h]
    exact ⟨rfl, rfl, rfl, rfl, rfl, rfl⟩

theorem extinguish_no_new_tree (e : Env) (x y u v : ℤ)
    (h : gridGet (e.extinguish x y).2.grid u v = Cell.tree) :
    gridGet e.grid u v = Cell.tree := by
  unfold Env.extinguish at h
  by_cases hm : (x, y) ∈ e.fire_cells
  · rw [if_pos hm] at h
    exact gridGet_set_no_new_tree (by intro hc; cases hc) u v h
  · rw [if_neg hm] at h
    exact h

theorem extinguish_WFg {e : Env} (hg : WFg e.grid) (x y : ℤ) :
    WFg (e.extinguish x y).2.grid := by
  unfold Env.extinguish
  by_cases hm : (x, y) ∈ e.fire_cells
  · rw [if_pos hm]
    exact WFg_gridSet hg x y Cell.empty
  · rw [if_neg hm]
    exact hg

theorem extinguishSweep_env (x y r : ℤ) :
    ∀ (fires : List (ℤ × ℤ)) (e : Env) (racc : ℚ) (cnt : ℕ) (flag : Bool),
      ((Agent.extinguishSweep x y r e fires racc cnt flag).1.grid_width =
        e.grid_width ∧
      (Agent.extinguishSweep x y r e fires racc cnt flag).1.grid_height =
        e.grid_height ∧
      (Agent.extinguishSweep x y r e fires racc cnt flag).1.fire_spread_radius =
        e.fire_spread_radius ∧
      (Agent.extinguishSweep x y r e fires racc cnt flag).1.spread_delay =
        e.spread_delay ∧
      (Agent.extinguishSweep x y r e fires racc cnt flag).1.spread_timer =
        e.spread_timer ∧
      (Agent.extinguishSweep x y r e fires racc cnt flag).1.agents = e.agents) ∧
      (∀ u v, gridGet (Agent.extinguishSweep x y r e fires racc cnt flag).1.grid
          u v = Cell.tree → gridGet e.grid u v = Cell.tree) ∧
      (WFg e.grid → WFg (Agent.extinguishSweep x y r e fires racc cnt flag).1.grid) := by
  intro fires
  induction fires with
  | nil =>
      intro e racc cnt flag
      exact ⟨⟨rfl, rfl, rfl, rfl, rfl, rfl⟩, fun u v h => h, fun h => h⟩
  | cons f rest ih =>
      intro e racc cnt flag
      unfold Agent.extinguishSweep
      by_cases hok : (e.extinguish f.1 f.2).1 = true
      · rw [if_pos hok]
        obtain ⟨ihp, ihnt, ihwf⟩ := ih (e.extinguish f.1 f.2).2
          (racc + 10 + 5 * ((Agent.firesInRadius (e.extinguish f.1 f.2).2 x y r).length : ℚ))
          (cnt + 1) true
        obtain ⟨p1, p2, p3, p4, p5, p6⟩ := extinguish_proj e f.1 f.2
        refine ⟨⟨?_, ?_, ?_, ?_, ?_, ?_⟩, ?_, ?_⟩
        · rw [ihp.1, p1]
        · rw [ihp.2.1, p2]
        · rw [ihp.2.2.1, p3]
        · rw [ihp.2.2.2.1, p4]
        · rw [ihp.2.2.2.2.1, p5]
        · rw [ihp.2.2.2.2.2, p6]
        · intro u v h
          exact extinguish_no_new_tree e f.1 f.2 u v (ihnt u v h)
        · intro h
          exact ihwf (extinguish_WFg h f.1 f.2)
      · rw [if_neg hok]
        obtain ⟨ihp, ihnt, ihwf⟩ := ih (e.extinguish f.1 f.2).2 racc cnt flag
        obtain ⟨p1, p2, p3, p4, p5, p6⟩ := extinguish_proj e f.1 f.2
        refine ⟨⟨?_, ?_, ?_, ?_, ?_, ?_⟩, ?_, ?_⟩
        · rw [ihp.1, p1]
        · rw [ihp.2.1, p2]
        · rw [ihp.2.2.1, p3]
        · rw [ihp.2.2.2.1, p4]
        · rw [ihp.2.2.2.2.1, p5]
        · rw [ihp.2.2.2.2.2, p6]
        · intro u v h
          exact extinguish_no_new_tree e f.1 f.2 u v (ihnt u v h)
        · intro h
          exact ihwf (extinguish_WFg h f.1 f.2)

/-- The environment returned by an agent step: identical to the input
for every non-EXTINGUISH action, and the sweep result for EXTINGUISH. -/
theorem agent_stepWith_env (a : Action) (e : Env) (ag : Agent) :
    (Agent.stepWith a e ag).1 =
      (match a with
       | Action.extinguish =>
          (Agent.extinguishSweep ag.x ag.y ag.extinguishing_radius e
            (Agent.firesInRadius e ag.x ag.y ag.extinguishing_radius)
            (-(1 / 10)) ag.extinguished_count false).1
       | _ => e) := by
  cases a <;> rfl

theorem agent_stepWith_env_proj (a : Action) (e : Env) (ag : Agent) :
    ((Agent.stepWith a e ag).1.grid_width = e.grid_width ∧
    (Agent.stepWith a e ag).1.grid_height = e.grid_height ∧
    (Agent.stepWith a e ag).1.fire_spread_radius = e.fire_spread_radius ∧
    (Agent.stepWith a e ag).1.spread_delay = e.spread_delay ∧
    (Agent.stepWith a e ag).1.spread_timer = e.spread_timer ∧
    (Agent.stepWith a e ag).1.agents = e.agents) ∧
    (∀ u v, gridGet (Agent.stepWith a e ag).1.grid u v = Cell.tree →
      gridGet e.grid u v = Cell.tree) ∧
    (WFg e.grid → WFg (Agent.stepWith a e ag).1.grid) := by
  rw [agent_stepWith_env]
  cases a with
  | extinguish =>
      exact extinguishSweep_env ag.x ag.y ag.extinguishing_radius
        (Agent.firesInRadius e ag.x ag.y ag.extinguishing_radius) e
        (-(1 / 10)) ag.extinguished_count false
  | up => exact ⟨⟨rfl, rfl, rfl, rfl, rfl, rfl⟩, fun u v h => h, fun h => h⟩
  | down => exact ⟨⟨rfl, rfl, rfl, rfl, rfl, rfl⟩, fun u v h => h, fun h => h⟩
  | left => exact ⟨⟨rfl, rfl, rfl, rfl, rfl, rfl⟩, fun u v h => h, fun h => h⟩
  | right => exact ⟨⟨rfl, rfl, rfl, rfl, rfl, rfl⟩, fun u v h => h, fun h => h⟩
  | stay => exact ⟨⟨rfl, rfl, rfl, rfl, rfl, rfl⟩, fun u v h => h, fun h => h⟩

theorem in_bounds_congr {e1 e2 : Env} (hw : e1.grid_width = e2.grid_width)
    (hh : e1.grid_height = e2.grid_height) (x y : ℤ) :
    e1.in_bounds x y = e2.in_bounds x y := by
  unfold Env.in_bounds
  rw [hw, hh]

/-- The movement rule of the agent step (agents.py lines 104-106): the
destination is taken iff it is in-bounds and not a tree, evaluated
against the environment left by the action (which for EXTINGUISH is the
post-sweep state). -/
theorem agent_stepWith_pos (a : Action) (e : Env) (ag : Agent) :
    ((Agent.stepWith a e ag).2.x, (Agent.stepWith a e ag).2.y) =
      (if (Agent.stepWith a e ag).1.in_bounds (ag.x + (Agent.delta a).1)
            (ag.y + (Agent.delta a).2) = true ∧
          gridGet (Agent.stepWith a e ag).1.grid (ag.x + (Agent.delta a).1)
            (ag.y + (Agent.delta a).2) ≠ Cell.tree
        then (ag.x + (Agent.delta a).1, ag.y + (Agent.delta a).2)
        else (ag.x, ag.y)) := by
  show ((Agent.stepWith a e ag).2.x, (Agent.stepWith a e ag).2.y) = _
  unfold Agent.stepWith Agent.updateQ
  dsimp only

/-- The four movement actions. -/
def isMovement (a : Action) : Bool :=
  match a with
  | Action.up => true
  | Action.down => true
  | Action.left => true
  | Action.right => true
  | _ => false

theorem stepWith_env_of_not_ext {a : Action} (hne : a ≠ Action.extinguish)
    (e : Env) (ag : Agent) : (Agent.stepWith a e ag).1 = e := by
  cases a with
  | extinguish => exact absurd rfl hne
  | up => rfl
  | down => rfl
  | left => rfl
  | right => rfl
  | stay => rfl

theorem movement_shift_ne {a : Action} (h : isMovement a = true) (x y : ℤ) :
    (x + (Agent.delta a).1, y + (Agent.delta a).2) ≠ (x, y) := by
  intro hc
  rw [Prod.mk.injEq] at hc
  obtain ⟨h1, h2⟩ := hc
  cases a with
  | up => simp only [Agent.delta] at h2; omega
  | down => simp only [Agent.delta] at h2; omega
  | left => simp only [Agent.delta] at h1; omega
  | right => simp only [Agent.delta] at h1; omega
  | extinguish => exact Bool.noConfusion h
  | stay => exact Bool.noConfusion h

/-- C9: for a movement action the position shifts by exactly one cell
iff the destination is in-bounds and not a tree; an illegal move is
absorbed (position unchanged) and the reward stays at the flat -0.1
baseline.  Consequently any step taken from an in-bounds non-tree
position ends on an in-bounds non-tree position (relative to the
post-step environment). -/
theorem claim_C9 :
    (∀ (a : Action) (e : Env) (ag : Agent), isMovement a = true →
      ((((Agent.stepWith a e ag).2.x, (Agent.stepWith a e ag).2.y) =
          (ag.x + (Agent.delta a).1, ag.y + (Agent.delta a).2) ↔
        (e.in_bounds (ag.x + (Agent.delta a).1) (ag.y + (Agent.delta a).2) = true ∧
          gridGet e.grid (ag.x + (Agent.delta a).1) (ag.y + (Agent.delta a).2) ≠
            Cell.tree)) ∧
      (¬(e.in_bounds (ag.x + (Agent.delta a).1) (ag.y + (Agent.delta a).2) = true ∧
          gridGet e.grid (ag.x + (Agent.delta a).1) (ag.y + (Agent.delta a).2) ≠
            Cell.tree) →
        ((Agent.stepWith a e ag).2.x, (Agent.stepWith a e ag).2.y) =
          (ag.x, ag.y)) ∧
      (Agent.stepWith a e ag).2.last_reward = -(1 / 10))) ∧
    (∀ (a : Action) (e : Env) (ag : Agent),
      e.in_bounds ag.x ag.y = true → gridGet e.grid ag.x ag.y ≠ Cell.tree →
      ((Agent.stepWith a e ag).1.in_bounds (Agent.stepWith a e ag).2.x
          (Agent.stepWith a e ag).2.y = true ∧
       gridGet (Agent.stepWith a e ag).1.grid (Agent.stepWith a e ag).2.x
          (Agent.stepWith a e ag).2.y ≠ Cell.tree)) := by
  constructor
  · intro a e ag hmov
    have hne : a ≠ Action.extinguish := by
      intro hc
      rw [hc] at hmov
      exact Bool.noConfusion hmov
    have henv : (Agent.stepWith a e ag).1 = e := stepWith_env_of_not_ext hne e ag
    have hpos := agent_stepWith_pos a e ag
    rw [henv] at hpos
    have hrew : (Agent.stepWith a e ag).2.last_reward = -(1 / 10) := by
      rw [stepWith_last_reward]
      cases a with
      | extinguish => exact absurd rfl hne
      | up => rfl
      | down => rfl
      | left => rfl
      | right => rfl
      | stay => rfl
    by_cases hcond : (e.in_bounds (ag.x + (Agent.delta a).1)
        (ag.y + (Agent.delta a).2) = true ∧
        gridGet e.grid (ag.x + (Agent.delta a).1) (ag.y + (Agent.delta a).2) ≠
          Cell.tree)
    · rw [if_pos hcond] at hpos
      exact ⟨⟨fun _ => hcond, fun _ => hpos⟩,
        fun hc => absurd hcond hc, hrew⟩
    · rw [if_neg hcond] at hpos
      refine ⟨⟨fun heq => ?_, fun hc => absurd hc hcond⟩, fun _ => hpos, hrew⟩
      rw [hpos] at heq
      exact absurd heq.symm (movement_shift_ne hmov ag.x ag.y)
  · intro a e ag hinb htree
    have hproj := agent_stepWith_env_proj a e ag
    have hpos := agent_stepWith_pos a e ag
    by_cases hcond : ((Agent.stepWith a e ag).1.in_bounds
        (ag.x + (Agent.delta a).1) (ag.y + (Agent.delta a).2) = true ∧
        gridGet (Agent.stepWith a e ag).1.grid (ag.x + (Agent.delta a).1)
          (ag.y + (Agent.delta a).2) ≠ Cell.tree)
    · rw [if_pos hcond] at hpos
      have hx : (Agent.stepWith a e ag).2.x = ag.x + (Agent.delta a).1 :=
        congrArg Prod.fst hpos
      have hy : (Agent.stepWith a e ag).2.y = ag.y + (Agent.delta a).2 :=
        congrArg Prod.snd hpos
      rw [hx, hy]
      exact hcond
    · rw [if_neg hcond] at hpos
      have hx : (Agent.stepWith a e ag).2.x = ag.x :=
        congrArg Prod.fst hpos
      have hy : (Agent.stepWith a e ag).2.y = ag.y :=
        congrArg Prod.snd hpos
      rw [hx, hy]
      constructor
      · rw [in_bounds_congr hproj.1.1 hproj.1.2.1]
        exact hinb
      · intro hT
        exact htree (hproj.2.1 _ _ hT)

/-- Concrete environment for the C9 witness: an all-empty 150 by 150
grid with no fires and no registered agents. -/
def c9Env : Env :=
  { grid_width := 150, grid_height := 150, grid := emptyGrid,
    fire_spread_radius := 3, spread_delay := 30, spread_timer := 0,
    fire_cells := [], agents := [] }

/-- Concrete agent for the C9 witness, standing at (5,5). -/
def c9Agent : Agent :=
  { x := 5, y := 5, extinguishing_radius := 4, q_table := [], alpha := 1 / 10,
    gamma := 9 / 10, epsilon := 1 / 5, last_reward := 0, extinguished_count := 0 }

set_option maxRecDepth 10000 in
/-- Witness for C9: both parts instantiated for the UP action at the
concrete agent. -/
theorem claim_C9_witness :
    ((((Agent.stepWith Action.up c9Env c9Agent).2.x,
        (Agent.stepWith Action.up c9Env c9Agent).2.y) =
        (c9Agent.x + (Agent.delta Action.up).1,
         c9Agent.y + (Agent.delta Action.up).2) ↔
      (c9Env.in_bounds (c9Agent.x + (Agent.delta Action.up).1)
          (c9Agent.y + (Agent.delta Action.up).2) = true ∧
        gridGet c9Env.grid (c9Agent.x + (Agent.delta Action.up).1)
          (c9Agent.y + (Agent.delta Action.up).2) ≠ Cell.tree)) ∧
    (¬(c9Env.in_bounds (c9Agent.x + (Agent.delta Action.up).1)
          (c9Agent.y + (Agent.delta Action.up).2) = true ∧
        gridGet c9Env.grid (c9Agent.x + (Agent.delta Action.up).1)
          (c9Agent.y + (Agent.delta Action.up).2) ≠ Cell.tree) →
      ((Agent.stepWith Action.up c9Env c9Agent).2.x,
        (Agent.stepWith Action.up c9Env c9Agent).2.y) =
        (c9Agent.x, c9Agent.y)) ∧
    (Agent.stepWith Action.up c9Env c9Agent).2.last_reward = -(1 / 10)) ∧
    ((Agent.stepWith Action.stay c9Env c9Agent).1.in_bounds
        (Agent.stepWith Action.stay c9Env c9Agent).2.x
        (Agent.stepWith Action.stay c9Env c9Agent).2.y = true ∧
      gridGet (Agent.stepWith Action.stay c9Env c9Agent).1.grid
        (Agent.stepWith Action.stay c9Env c9Agent).2.x
        (Agent.stepWith Action.stay c9Env c9Agent).2.y ≠ Cell.tree) :=
  ⟨claim_C9.1 Action.up c9Env c9Agent rfl,
   claim_C9.2 Action.stay c9Env c9Agent (by decide) (by decide)⟩

-- add_agent: the guarded relocation search and the unguarded first read.

theorem findSome?_find?_flatMap {α β : Type} (l : List α) (g : α → List β)
    (p : β → Bool) :
    l.findSome? (fun a => (g a).find? p) = (l.flatMap g).find? p := by
  induction l with
  | nil => rfl
  | cons a rest ih =>
      rw [List.flatMap_cons, List.find?_append, List.findSome?_cons]
      cases h : (g a).find? p with
      | none =>
          dsimp only
          rw [ih]
          rfl
      | some b => rfl

/-- Under well-formed dimensions, the unguarded first read of add_agent
succeeds on an in-bounds request and returns the cell `gridGet` reads. -/
theorem pyRead_eq (e : Env) (hwf : WF e) {x y : ℤ}
    (hin : e.in_bounds x y = true) :
    (pyListGet e.grid y).bind (fun row => pyListGet row x) =
      some (gridGet e.grid x y) := by
  have hb : 0 ≤ x ∧ x < e.grid_width ∧ 0 ≤ y ∧ y < e.grid_height := by
    unfold Env.in_bounds at hin
    exact of_decide_eq_true hin
  have hg : e.grid.length = 150 := hwf.2.2.1
  have hrows : ∀ r ∈ e.grid, r.length = 150 := hwf.2.2.2
  have hx0 : 0 ≤ x := hb.1
  have hx1 : x < 150 := hwf.1 ▸ hb.2.1
  have hy0 : 0 ≤ y := hb.2.2.1
  have hy1 : y < 150 := hwf.2.1 ▸ hb.2.2.2
  have hyn : y.toNat < e.grid.length := by rw [hg]; omega
  unfold pyListGet
  rw [wrapIdx_of_nonneg_lt hy0 (by rw [hg]; exact_mod_cast hy1)]
  simp only [Option.some_bind]
  rw [List.getElem?_eq_getElem hyn]
  simp only [Option.some_bind]
  have hrow : e.grid[y.toNat].length = 150 := hrows _ (List.getElem_mem hyn)
  have hxn : x.toNat < e.grid[y.toNat].length := by rw [hrow]; omega
  rw [wrapIdx_of_nonneg_lt hx0 (by rw [hrow]; exact_mod_cast hx1)]
  simp only [Option.some_bind]
  rw [List.getElem?_eq_getElem hxn]
  congr 1
  unfold gridGet
  rw [gridResolve_inb hg hrows ⟨hx0, hx1, hy0, hy1⟩]
  dsimp only
  have h1 : e.grid.getD y.toNat [] = e.grid[y.toNat] := by
    simp [List.getD_eq_getElem?_getD, List.getElem?_eq_getElem hyn]
  rw [h1]
  simp [List.getD_eq_getElem?_getD, List.getElem?_eq_getElem hxn]

/-- C8: with an in-bounds requested coordinate, add_agent places the
agent on the requested cell when it is EMPTY; otherwise it relocates the
agent to the first EMPTY in-bounds cell of the expanding square search
(radii 1 through 9, full square scan per radius, in scan order), and if
that search finds nothing the call silently changes no state and never
appends the agent. -/
theorem claim_C8 (e : Env) (a : Agent) (hwf : WF e)
    (hin : e.in_bounds a.x a.y = true) :
    (gridGet e.grid a.x a.y = Cell.empty →
      e.addAgent a = some
        { e with
          agents := e.agents ++ [a]
          grid := gridSet e.grid a.x a.y Cell.agentMark }) ∧
    (gridGet e.grid a.x a.y ≠ Cell.empty →
      (∀ nx ny, e.relocationTarget a.x a.y = some (nx, ny) →
        e.addAgent a = some
          { e with
            agents := e.agents ++ [{ a with x := nx, y := ny }]
            grid := gridSet e.grid nx ny Cell.agentMark }) ∧
      (e.relocationTarget a.x a.y = none → e.addAgent a = some e)) ∧
    e.relocationTarget a.x a.y =
      ((intRange 1 10).flatMap (fun radius =>
        (intRange (-radius) (radius + 1)).flatMap (fun dx =>
          (intRange (-radius) (radius + 1)).map (fun dy =>
            (a.x + dx, a.y + dy))))).find?
        (fun p => e.in_bounds p.1 p.2 &&
          decide (gridGet e.grid p.1 p.2 = Cell.empty)) := by
  refine ⟨?_, ?_, ?_⟩
  · intro hc
    unfold Env.addAgent
    rw [pyRead_eq e hwf hin]
    dsimp only
    rw [if_pos hc]
  · intro hc
    constructor
    · intro nx ny hrel
      unfold Env.addAgent
      rw [pyRead_eq e hwf hin]
      dsimp only
      rw [if_neg hc, hrel]
    · intro hrel
      unfold Env.addAgent
      rw [pyRead_eq e hwf hin]
      dsimp only
      rw [if_neg hc, hrel]
  · unfold Env.relocationTarget
    rw [findSome?_find?_flatMap]

/-- Concrete environment for the C8 witness (all-empty grid). -/
def c8Env : Env :=
  { grid_width := 150, grid_height := 150, grid := emptyGrid,
    fire_spread_radius := 3, spread_delay := 30, spread_timer := 0,
    fire_cells := [], agents := [] }

/-- Concrete agent requesting the empty in-bounds cell (5,5). -/
def c8Agent : Agent :=
  { x := 5, y := 5, extinguishing_radius := 4, q_table := [], alpha := 1 / 10,
    gamma := 9 / 10, epsilon := 1 / 5, last_reward := 0, extinguished_count := 0 }

set_option maxRecDepth 10000 in
/-- Witness for C8: the empty-cell branch at the concrete request. -/
theorem claim_C8_witness :
    c8Env.addAgent c8Agent = some
      { c8Env with
        agents := c8Env.agents ++ [c8Agent]
        grid := gridSet c8Env.grid c8Agent.x c8Agent.y Cell.agentMark } :=
  (claim_C8 c8Env c8Agent
    (by unfold WF WFg; exact ⟨rfl, rfl, by decide, by decide⟩)
    (by decide)).1 (by decide)

/-- Concrete agent whose requested coordinate (150, 0) is out of
bounds. -/
def c4Agent : Agent :=
  { x := 150, y := 0, extinguishing_radius := 4, q_table := [], alpha := 1 / 10,
    gamma := 9 / 10, epsilon := 1 / 5, last_reward := 0, extinguished_count := 0 }

/-- Concrete environment for the C4 theorems (all-empty grid). -/
def c4Env : Env :=
  { grid_width := 150, grid_height := 150, grid := emptyGrid,
    fire_spread_radius := 3, spread_delay := 30, spread_timer := 0,
    fire_cells := [], agents := [] }

/-- Concrete in-bounds agent for the C4 witness. -/
def c4bAgent : Agent :=
  { x := 7, y := 8, extinguishing_radius := 4, q_table := [], alpha := 1 / 10,
    gamma := 9 / 10, epsilon := 1 / 5, last_reward := 0, extinguished_count := 0 }

set_option maxRecDepth 10000 in
/-- C4, as stated, is false on the code: add_agent indexes
`grid[agent.y][agent.x]` at the caller-requested coordinate before any
bounds check, so a request at the out-of-bounds coordinate (150, 0) —
where in_bounds is false — reaches the grid indexing and raises
IndexError (the embedded partial read returns none). -/
theorem claim_C4_counterexample :
    c4Env.in_bounds 150 0 = false ∧ c4Env.addAgent c4Agent = none := by
  constructor
  · decide
  · rfl

/-- C4 (amended): every grid access of the core operations other than
add_agent's initial read of the requested cell is dominated by an
explicit bounds check; the unguarded initial read never goes out of
bounds provided the caller requests an in-bounds coordinate, in which
case add_agent completes without any out-of-bounds access. -/
theorem claim_C4 (e : Env) (a : Agent) (hwf : WF e)
    (hin : e.in_bounds a.x a.y = true) :
    (e.addAgent a).isSome = true := by
  unfold Env.addAgent
  rw [pyRead_eq e hwf hin]
  dsimp only
  by_cases hc : gridGet e.grid a.x a.y = Cell.empty
  · rw [if_pos hc]
    rfl
  · rw [if_neg hc]
    cases hrel : e.relocationTarget a.x a.y with
    | none => rfl
    | some p => rfl

set_option maxRecDepth 10000 in
/-- Witness for C4 at a concrete in-bounds request. -/
theorem claim_C4_witness : (c4Env.addAgent c4bAgent).isSome = true :=
  claim_C4 c4Env c4bAgent
    (by unfold WF WFg; exact ⟨rfl, rfl, by decide, by decide⟩) (by decide)

-- Fire spread: membership in the spread front and the ignition fold.

theorem mem_intRange {a b t : ℤ} : t ∈ intRange a b ↔ a ≤ t ∧ t < b := by
  unfold intRange
  constructor
  · intro h
    obtain ⟨i, hi, hit⟩ := List.mem_map.mp h
    have hlt : i < (b - a).toNat := List.mem_range.mp hi
    omega
  · intro h
    apply List.mem_map.mpr
    exact ⟨(t - a).toNat, List.mem_range.mpr (by omega), by omega⟩

theorem gridGet_ne_empty_isSome {g : Grid} {x y : ℤ}
    (h : gridGet g x y ≠ Cell.empty) : (gridResolve g x y).isSome = true := by
  unfold gridGet at h
  cases hr : gridResolve g x y with
  | none => rw [hr] at h; exact absurd rfl h
  | some p => rfl

theorem gridGet_set_self_of_ne_empty {g : Grid} {x y : ℤ} (c : Cell)
    (h : gridGet g x y ≠ Cell.empty) : gridGet (gridSet g x y c) x y = c := by
  rw [gridGet_gridSet]
  rw [if_pos ⟨gridGet_ne_empty_isSome h, rfl⟩]

theorem igniteTree_fire_persist (e : Env) (x y u v : ℤ)
    (h : gridGet e.grid u v = Cell.fire) :
    gridGet (e.igniteTree x y).grid u v = Cell.fire := by
  unfold Env.igniteTree
  by_cases ht : gridGet e.grid x y = Cell.tree
  · rw [if_pos ht]
    show gridGet (gridSet e.grid x y Cell.fire) u v = Cell.fire
    rw [gridGet_gridSet]
    by_cases hc : (gridResolve e.grid x y).isSome = true ∧
        gridResolve e.grid u v = gridResolve e.grid x y
    · rw [if_pos hc]
    · rw [if_neg hc]
      exact h
  · rw [if_neg ht]
    exact h

theorem igniteTree_sets_fire (e : Env) (x y : ℤ)
    (h : gridGet e.grid x y = Cell.tree) :
    gridGet (e.igniteTree x y).grid x y = Cell.fire := by
  unfold Env.igniteTree
  rw [if_pos h]
  show gridGet (gridSet e.grid x y Cell.fire) x y = Cell.fire
  exact gridGet_set_self_of_ne_empty Cell.fire (by rw [h]; intro hc; cases hc)

theorem igniteTree_get_other (e : Env) {x y u v : ℤ} (hwfg : WFg e.grid)
    (hxy : InB (x, y)) (huv : InB (u, v)) (hne : (u, v) ≠ (x, y)) :
    gridGet (e.igniteTree x y).grid u v = gridGet e.grid u v := by
  unfold Env.igniteTree
  by_cases ht : gridGet e.grid x y = Cell.tree
  · rw [if_pos ht]
    exact gridGet_set_ne hwfg.1 hwfg.2 hxy huv hne Cell.fire
  · rw [if_neg ht]

theorem igniteTree_proj (e : Env) (x y : ℤ) :
    (e.igniteTree x y).grid_width = e.grid_width ∧
    (e.igniteTree x y).grid_height = e.grid_height ∧
    (e.igniteTree x y).fire_spread_radius = e.fire_spread_radius ∧
    (e.igniteTree x y).spread_delay = e.spread_delay ∧
    (e.igniteTree x y).spread_timer = e.spread_timer ∧
    (e.igniteTree x y).agents = e.agents := by
  unfold Env.igniteTree
  by_cases ht : gridGet e.grid x y = Cell.tree
  · rw [if_pos ht]
    exact ⟨rfl, rfl, rfl, rfl, rfl, rfl⟩
  · rw [if_neg ht]
    exact ⟨rfl, rfl, rfl, rfl, rfl, rfl⟩

theorem igniteTree_WFg {e : Env} (hwfg : WFg e.grid) (x y : ℤ) :
    WFg (e.igniteTree x y).grid := by
  unfold Env.igniteTree
  by_cases ht : gridGet e.grid x y = Cell.tree
  · rw [if_pos ht]
    exact WFg_gridSet hwfg x y Cell.fire
  · rw [if_neg ht]
    exact hwfg

theorem igniteList_fire_persist (l : List (ℤ × ℤ)) :
    ∀ (e : Env) (u v : ℤ), gridGet e.grid u v = Cell.fire →
      gridGet (e.igniteList l).grid u v = Cell.fire := by
  induction l with
  | nil => intro e u v h; exact h
  | cons q rest ih =>
      intro e u v h
      exact ih (e.igniteTree q.1 q.2) u v (igniteTree_fire_persist e q.1 q.2 u v h)

theorem igniteList_WFg (l : List (ℤ × ℤ)) :
    ∀ (e : Env), WFg e.grid → WFg (e.igniteList l).grid := by
  induction l with
  | nil => intro e h; exact h
  | cons q rest ih =>
      intro e h
      exact ih (e.igniteTree q.1 q.2) (igniteTree_WFg h q.1 q.2)

theorem igniteList_fire (l : List (ℤ × ℤ)) :
    ∀ (e : Env), WFg e.grid → (∀ q ∈ l, InB q) →
      ∀ p ∈ l, gridGet e.grid p.1 p.2 = Cell.tree →
        gridGet (e.igniteList l).grid p.1 p.2 = Cell.fire := by
  induction l with
  | nil => intro e _ _ p hp; cases hp
  | cons q rest ih =>
      intro e hwfg hinb p hp htree
      rcases List.mem_cons.mp hp with hq | hrest
      · subst hq
        exact igniteList_fire_persist rest _ p.1 p.2
          (igniteTree_sets_fire e p.1 p.2 htree)
      · by_cases hpq : p = q
        · subst hpq
          exact igniteList_fire_persist rest _ p.1 p.2
            (igniteTree_sets_fire e p.1 p.2 htree)
        · have hget : gridGet (e.igniteTree q.1 q.2).grid p.1 p.2 =
              gridGet e.grid p.1 p.2 := by
            have h1 : InB (q.1, q.2) := by
              have := hinb q (List.mem_cons_self q rest)
              exact this
            have h2 : InB (p.1, p.2) := hinb p hp
            have h3 : (p.1, p.2) ≠ (q.1, q.2) := by
              intro hc
              apply hpq
              have hx : p.1 = q.1 := congrArg Prod.fst hc
              have hy : p.2 = q.2 := congrArg Prod.snd hc
              exact Prod.ext hx hy
            exact igniteTree_get_other e hwfg h1 h2 h3
          have := ih (e.igniteTree q.1 q.2) (igniteTree_WFg hwfg q.1 q.2)
            (fun r hr => hinb r (List.mem_cons_of_mem q hr)) p hrest
            (by rw [hget]; exact htree)
          exact this

theorem abs_le_of_sq_le_sq {a r : ℤ} (hr : 0 ≤ r) (h : a ^ 2 ≤ r ^ 2) :
    -r ≤ a ∧ a ≤ r := by
  constructor
  · nlinarith [sq_nonneg (a + r)]
  · nlinarith [sq_nonneg (a - r)]

/-- Completeness of the spread scan: every in-bounds tree within the
circular radius of (qx, qy) appears in _get_trees_in_radius. -/
theorem mem_treesInRadius {e : Env} (hwf : WF e)
    (hr : 1 ≤ e.fire_spread_radius) {qx qy x y : ℤ} (hinb : InB (x, y))
    (htree : gridGet e.grid x y = Cell.tree)
    (hdist : (x - qx) ^ 2 + (y - qy) ^ 2 ≤ e.fire_spread_radius ^ 2) :
    (x, y) ∈ e.treesInRadius qx qy := by
  have hx0 : 0 ≤ x := hinb.1
  have hx1 : x < 150 := hinb.2.1
  have hy0 : 0 ≤ y := hinb.2.2.1
  have hy1 : y < 150 := hinb.2.2.2
  have hdx : -e.fire_spread_radius ≤ x - qx ∧ x - qx ≤ e.fire_spread_radius :=
    abs_le_of_sq_le_sq (by omega) (by nlinarith [sq_nonneg (y - qy)])
  have hdy : -e.fire_spread_radius ≤ y - qy ∧ y - qy ≤ e.fire_spread_radius :=
    abs_le_of_sq_le_sq (by omega) (by nlinarith [sq_nonneg (x - qx)])
  unfold Env.treesInRadius
  apply List.mem_flatMap.mpr
  refine ⟨y - qy, mem_intRange.mpr ⟨by omega, by omega⟩, ?_⟩
  apply List.mem_filterMap.mpr
  refine ⟨x - qx, mem_intRange.mpr ⟨by omega, by omega⟩, ?_⟩
  have hxx : qx + (x - qx) = x := by ring
  have hyy : qy + (y - qy) = y := by ring
  rw [hxx, hyy]
  rw [if_pos ?_]
  refine ⟨hx0, by rw [hwf.1]; exact hx1, hy0, by rw [hwf.2.1]; exact hy1, ?_, htree⟩
  calc (x - qx) ^ 2 + (y - qy) ^ 2 ≤ e.fire_spread_radius ^ 2 := hdist

/-- Soundness of the spread scan: every member is an in-bounds tree. -/
theorem treesInRadius_mem_inb {e : Env} (hwf : WF e) {qx qy : ℤ} {p : ℤ × ℤ}
    (hp : p ∈ e.treesInRadius qx qy) :
    InB p ∧ gridGet e.grid p.1 p.2 = Cell.tree := by
  unfold Env.treesInRadius at hp
  obtain ⟨dy, _, hp2⟩ := List.mem_flatMap.mp hp
  obtain ⟨dx, _, hcond⟩ := List.mem_filterMap.mp hp2
  by_cases h : (0 ≤ qx + dx ∧ qx + dx < e.grid_width ∧ 0 ≤ qy + dy ∧
      qy + dy < e.grid_height ∧
      dx ^ 2 + dy ^ 2 ≤ e.fire_spread_radius ^ 2 ∧
      gridGet e.grid (qx + dx) (qy + dy) = Cell.tree)
  · rw [if_pos h] at hcond
    injection hcond with hc
    subst hc
    obtain ⟨h1, h2, h3, h4, _, h6⟩ := h
    exact ⟨⟨h1, by rw [hwf.1] at h2; exact h2, h3,
      by rw [hwf.2.1] at h4; exact h4⟩, h6⟩
  · rw [if_neg h] at hcond
    cases hcond

theorem mem_setAdd_fold (l : List (ℤ × ℤ)) :
    ∀ (acc : List (ℤ × ℤ)) (p : ℤ × ℤ), (p ∈ acc ∨ p ∈ l) →
      p ∈ l.foldl (fun acc2 q => if q ∈ acc2 then acc2 else acc2 ++ [q]) acc := by
  induction l with
  | nil =>
      intro acc p hp
      rcases hp with h | h
      · exact h
      · cases h
  | cons q rest ih =>
      intro acc p hp
      apply ih
      dsimp only
      by_cases hq : q ∈ acc
      · rw [if_pos hq]
        rcases hp with h | h
        · exact Or.inl h
        · rcases List.mem_cons.mp h with h' | h'
          · exact Or.inl (h' ▸ hq)
          · exact Or.inr h'
      · rw [if_neg hq]
        rcases hp with h | h
        · exact Or.inl (List.mem_append_left _ h)
        · rcases List.mem_cons.mp h with h' | h'
          · exact Or.inl (List.mem_append_right _ (by rw [h']; exact List.mem_singleton_self q))
          · exact Or.inr h'

theorem mem_setAdd_fold_rev (l : List (ℤ × ℤ)) :
    ∀ (acc : List (ℤ × ℤ)) (p : ℤ × ℤ),
      p ∈ l.foldl (fun acc2 q => if q ∈ acc2 then acc2 else acc2 ++ [q]) acc →
      p ∈ acc ∨ p ∈ l := by
  induction l with
  | nil => intro acc p hp; exact Or.inl hp
  | cons q rest ih =>
      intro acc p hp
      rcases ih _ p hp with h | h
      · dsimp only at h
        by_cases hq : q ∈ acc
        · rw [if_pos hq] at h
          exact Or.inl h
        · rw [if_neg hq] at h
          rcases List.mem_append.mp h with h' | h'
          · exact Or.inl h'
          · exact Or.inr (List.mem_cons.mpr (Or.inl (List.mem_singleton.mp h')))
      · exact Or.inr (List.mem_cons_of_mem q h)

theorem mem_newFires {e : Env} {p q : ℤ × ℤ} (hq : q ∈ e.fire_cells)
    (hp : p ∈ e.treesInRadius q.1 q.2) : p ∈ e.newFires := by
  unfold Env.newFires
  suffices h : ∀ (l : List (ℤ × ℤ)) (acc : List (ℤ × ℤ)),
      (p ∈ acc ∨ ∃ q' ∈ l, p ∈ e.treesInRadius q'.1 q'.2) →
      p ∈ l.foldl (fun acc q' => (e.treesInRadius q'.1 q'.2).foldl
        (fun acc2 r => if r ∈ acc2 then acc2 else acc2 ++ [r]) acc) acc by
    exact h e.fire_cells [] (Or.inr ⟨q, hq, hp⟩)
  intro l
  induction l with
  | nil =>
      intro acc hacc
      rcases hacc with h | ⟨q', hq', _⟩
      · exact h
      · cases hq'
  | cons q' rest ih =>
      intro acc hacc
      apply ih
      rcases hacc with h | ⟨q'', hq'', hp''⟩
      · exact Or.inl (mem_setAdd_fold _ _ _ (Or.inl h))
      · rcases List.mem_cons.mp hq'' with h' | h'
        · subst h'
          exact Or.inl (mem_setAdd_fold _ _ _ (Or.inr hp''))
        · exact Or.inr ⟨q'', h', hp''⟩

theorem newFires_src {e : Env} {p : ℤ × ℤ} (hp : p ∈ e.newFires) :
    ∃ q ∈ e.fire_cells, p ∈ e.treesInRadius q.1 q.2 := by
  unfold Env.newFires at hp
  suffices h : ∀ (l : List (ℤ × ℤ)) (acc : List (ℤ × ℤ)),
      p ∈ l.foldl (fun acc q' => (e.treesInRadius q'.1 q'.2).foldl
        (fun acc2 r => if r ∈ acc2 then acc2 else acc2 ++ [r]) acc) acc →
      p ∈ acc ∨ ∃ q' ∈ l, p ∈ e.treesInRadius q'.1 q'.2 by
    rcases h e.fire_cells [] hp with h' | h'
    · cases h'
    · exact h'
  intro l
  induction l with
  | nil => intro acc hacc; exact Or.inl hacc
  | cons q' rest ih =>
      intro acc hacc
      rcases ih _ hacc with h | ⟨q'', hq'', hp''⟩
      · rcases mem_setAdd_fold_rev _ _ _ h with h' | h'
        · exact Or.inl h'
        · exact Or.inr ⟨q', List.mem_cons_self q' rest, h'⟩
      · exact Or.inr ⟨q'', List.mem_cons_of_mem q' hq'', hp''⟩

theorem igniteList_proj (l : List (ℤ × ℤ)) :
    ∀ (e : Env),
      (e.igniteList l).grid_width = e.grid_width ∧
      (e.igniteList l).grid_height = e.grid_height ∧
      (e.igniteList l).fire_spread_radius = e.fire_spread_radius ∧
      (e.igniteList l).spread_delay = e.spread_delay ∧
      (e.igniteList l).spread_timer = e.spread_timer ∧
      (e.igniteList l).agents = e.agents := by
  induction l with
  | nil => intro e; exact ⟨rfl, rfl, rfl, rfl, rfl, rfl⟩
  | cons q rest ih =>
      intro e
      have hstep : e.igniteList (q :: rest) =
          (e.igniteTree q.1 q.2).igniteList rest := rfl
      obtain ⟨i1, i2, i3, i4, i5, i6⟩ := ih (e.igniteTree q.1 q.2)
      obtain ⟨p1, p2, p3, p4, p5, p6⟩ := igniteTree_proj e q.1 q.2
      exact ⟨by rw [hstep, i1, p1], by rw [hstep, i2, p2], by rw [hstep, i3, p3],
        by rw [hstep, i4, p4], by rw [hstep, i5, p5], by rw [hstep, i6, p6]⟩

-- Projections of the step phases, the timer dynamics of the spread
-- gate, and iterated steps.

theorem clearMarks_WFg {e : Env} (h : WFg e.grid) : WFg (Env.clearMarks e).grid := by
  unfold Env.clearMarks
  apply foldl_preserves (P := WFg) ?_ e.agents e.grid h
  intro g a hg
  by_cases hc : gridGet g a.x a.y = Cell.agentMark
  · rw [if_pos hc]
    exact WFg_gridSet hg a.x a.y Cell.empty
  · rw [if_neg hc]
    exact hg

theorem markOccupancy_WFg {e : Env} (h : WFg e.grid) :
    WFg (Env.markOccupancy e).grid := by
  unfold Env.markOccupancy
  apply foldl_preserves (P := WFg) ?_ e.agents e.grid h
  intro g a hg
  by_cases hc : (e.in_bounds a.x a.y = true ∧ gridGet g a.x a.y = Cell.empty)
  · rw [if_pos hc]
    exact WFg_gridSet hg a.x a.y Cell.agentMark
  · rw [if_neg hc]
    exact hg

theorem turnsFold_proj (acts : ℕ → Action) :
    ∀ (l : List Agent) (e : Env) (i : ℕ),
      ((Env.turnsFold acts e l i).1.grid_width = e.grid_width ∧
       (Env.turnsFold acts e l i).1.grid_height = e.grid_height ∧
       (Env.turnsFold acts e l i).1.fire_spread_radius = e.fire_spread_radius ∧
       (Env.turnsFold acts e l i).1.spread_delay = e.spread_delay ∧
       (Env.turnsFold acts e l i).1.spread_timer = e.spread_timer) ∧
      (WFg e.grid → WFg (Env.turnsFold acts e l i).1.grid) := by
  intro l
  induction l with
  | nil => intro e i; exact ⟨⟨rfl, rfl, rfl, rfl, rfl⟩, fun h => h⟩
  | cons a rest ih =>
      intro e i
      have hstep : Env.turnsFold acts e (a :: rest) i =
          ((Env.turnsFold acts (Agent.stepWith (acts i) e a).1 rest (i + 1)).1,
           (Agent.stepWith (acts i) e a).2 ::
             (Env.turnsFold acts (Agent.stepWith (acts i) e a).1 rest (i + 1)).2) := rfl
      obtain ⟨⟨i1, i2, i3, i4, i5⟩, iwf⟩ := ih (Agent.stepWith (acts i) e a).1 (i + 1)
      obtain ⟨⟨p1, p2, p3, p4, p5, _⟩, _, pwf⟩ :=
        agent_stepWith_env_proj (acts i) e a
      rw [hstep]
      exact ⟨⟨by rw [i1, p1], by rw [i2, p2], by rw [i3, p3], by rw [i4, p4],
        by rw [i5, p5]⟩, fun h => iwf (pwf h)⟩

theorem agentPhase_proj (acts : ℕ → Action) (e : Env) :
    ((Env.agentPhase acts e).grid_width = e.grid_width ∧
     (Env.agentPhase acts e).grid_height = e.grid_height ∧
     (Env.agentPhase acts e).fire_spread_radius = e.fire_spread_radius ∧
     (Env.agentPhase acts e).spread_delay = e.spread_delay ∧
     (Env.agentPhase acts e).spread_timer = e.spread_timer + 1) ∧
    (WFg e.grid → WFg (Env.agentPhase acts e).grid) := by
  unfold Env.agentPhase
  have hclear : ∀ (e' : Env), (Env.clearMarks e').grid_width = e'.grid_width ∧
      (Env.clearMarks e').grid_height = e'.grid_height ∧
      (Env.clearMarks e').fire_spread_radius = e'.fire_spread_radius ∧
      (Env.clearMarks e').spread_delay = e'.spread_delay ∧
      (Env.clearMarks e').spread_timer = e'.spread_timer :=
    fun e' => ⟨rfl, rfl, rfl, rfl, rfl⟩
  have hmark : ∀ (e' : Env), (Env.markOccupancy e').grid_width = e'.grid_width ∧
      (Env.markOccupancy e').grid_height = e'.grid_height ∧
      (Env.markOccupancy e').fire_spread_radius = e'.fire_spread_radius ∧
      (Env.markOccupancy e').spread_delay = e'.spread_delay ∧
      (Env.markOccupancy e').spread_timer = e'.spread_timer :=
    fun e' => ⟨rfl, rfl, rfl, rfl, rfl⟩
  set e1 := Env.clearMarks { e with spread_timer := e.spread_timer + 1 } with he1
  set res := Env.turnsFold acts e1 e1.agents 0 with hres
  obtain ⟨⟨t1, t2, t3, t4, t5⟩, twf⟩ := turnsFold_proj acts e1.agents e1 0
  obtain ⟨m1, m2, m3, m4, m5⟩ := hmark { res.1 with agents := res.2 }
  constructor
  · refine ⟨?_, ?_, ?_, ?_, ?_⟩
    · rw [m1]; show res.1.grid_width = _; rw [t1]; exact (hclear _).1
    · rw [m2]; show res.1.grid_height = _; rw [t2]; exact (hclear _).2.1
    · rw [m3]; show res.1.fire_spread_radius = _; rw [t3]; exact (hclear _).2.2.1
    · rw [m4]; show res.1.spread_delay = _; rw [t4]; exact (hclear _).2.2.2.1
    · rw [m5]; show res.1.spread_timer = _; rw [t5]; exact (hclear _).2.2.2.2
  · intro h
    apply markOccupancy_WFg
    show WFg res.1.grid
    exact twf (clearMarks_WFg h)

theorem doSpread_proj (e : Env) :
    (Env.doSpread e).grid_width = e.grid_width ∧
    (Env.doSpread e).grid_height = e.grid_height ∧
    (Env.doSpread e).fire_spread_radius = e.fire_spread_radius ∧
    (Env.doSpread e).spread_delay = e.spread_delay ∧
    (Env.doSpread e).spread_timer = 0 ∧
    (WFg e.grid → WFg (Env.doSpread e).grid) := by
  unfold Env.doSpread
  obtain ⟨i1, i2, i3, i4, i5, _⟩ :=
    igniteList_proj (Env.newFires e) { e with spread_timer := 0 }
  exact ⟨i1, i2, i3, i4, i5, fun h => igniteList_WFg _ _ h⟩

theorem env_stepWith_gate (acts : ℕ → Action) (e : Env) :
    Env.stepWith acts e =
      (if (Env.agentPhase acts e).spread_delay ≤
          (Env.agentPhase acts e).spread_timer then
        Env.doSpread (Env.agentPhase acts e)
      else Env.agentPhase acts e) := rfl

theorem env_stepWith_proj (acts : ℕ → Action) (e : Env) :
    ((Env.stepWith acts e).grid_width = e.grid_width ∧
     (Env.stepWith acts e).grid_height = e.grid_height ∧
     (Env.stepWith acts e).fire_spread_radius = e.fire_spread_radius ∧
     (Env.stepWith acts e).spread_delay = e.spread_delay) ∧
    (WFg e.grid → WFg (Env.stepWith acts e).grid) ∧
    (Env.stepWith acts e).spread_timer =
      (if e.spread_delay ≤ e.spread_timer + 1 then 0 else e.spread_timer + 1) := by
  obtain ⟨⟨a1, a2, a3, a4, a5⟩, awf⟩ := agentPhase_proj acts e
  rw [env_stepWith_gate]
  by_cases hgate : (Env.agentPhase acts e).spread_delay ≤
      (Env.agentPhase acts e).spread_timer
  · rw [if_pos hgate]
    obtain ⟨d1, d2, d3, d4, d5, dwf⟩ := doSpread_proj (Env.agentPhase acts e)
    have hcond : e.spread_delay ≤ e.spread_timer + 1 := by
      rw [a4, a5] at hgate
      exact hgate
    refine ⟨⟨by rw [d1, a1], by rw [d2, a2], by rw [d3, a3], by rw [d4, a4]⟩,
      fun h => dwf (awf h), ?_⟩
    rw [if_pos hcond]
    exact d5
  · rw [if_neg hgate]
    have hcond : ¬(e.spread_delay ≤ e.spread_timer + 1) := by
      rw [a4, a5] at hgate
      exact hgate
    refine ⟨⟨a1, a2, a3, a4⟩, awf, ?_⟩
    rw [if_neg hcond]
    exact a5

/-- Iterated simulation steps; `o n i` is the action of agent `i` during
the (n+1)-st step. -/
def iterEnv (o : ℕ → ℕ → Action) : ℕ → Env → Env
  | 0, e => e
  | n + 1, e => Env.stepWith (o n) (iterEnv o n e)

theorem iterEnv_proj (o : ℕ → ℕ → Action) :
    ∀ (n : ℕ) (e : Env),
      ((iterEnv o n e).grid_width = e.grid_width ∧
       (iterEnv o n e).grid_height = e.grid_height ∧
       (iterEnv o n e).fire_spread_radius = e.fire_spread_radius ∧
       (iterEnv o n e).spread_delay = e.spread_delay) ∧
      (WFg e.grid → WFg (iterEnv o n e).grid) := by
  intro n
  induction n with
  | zero => intro e; exact ⟨⟨rfl, rfl, rfl, rfl⟩, fun h => h⟩
  | succ n ih =>
      intro e
      obtain ⟨⟨i1, i2, i3, i4⟩, iwf⟩ := ih e
      obtain ⟨⟨s1, s2, s3, s4⟩, swf, _⟩ := env_stepWith_proj (o n) (iterEnv o n e)
      exact ⟨⟨by rw [show iterEnv o (n+1) e = Env.stepWith (o n) (iterEnv o n e) from rfl, s1, i1],
        by rw [show iterEnv o (n+1) e = Env.stepWith (o n) (iterEnv o n e) from rfl, s2, i2],
        by rw [show iterEnv o (n+1) e = Env.stepWith (o n) (iterEnv o n e) from rfl, s3, i3],
        by rw [show iterEnv o (n+1) e = Env.stepWith (o n) (iterEnv o n e) from rfl, s4, i4]⟩,
        fun h => swf (iwf h)⟩

theorem mod_pred_succ_dvd {d k : ℕ} (hd : 1 ≤ d) (hk : 1 ≤ k) :
    (d ≤ (k - 1) % d + 1) ↔ d ∣ k := by
  have hlt : (k - 1) % d < d := Nat.mod_lt _ (by omega)
  constructor
  · intro h
    have hr : (k - 1) % d = d - 1 := by omega
    have hdm := Nat.div_add_mod (k - 1) d
    refine ⟨(k - 1) / d + 1, ?_⟩
    rw [Nat.mul_add, Nat.mul_one]
    omega
  · rintro ⟨m, rfl⟩
    have hm : 1 ≤ m := by
      by_contra hm
      push_neg at hm
      interval_cases m
      omega
    obtain ⟨m', rfl⟩ : ∃ m', m = m' + 1 := ⟨m - 1, by omega⟩
    have h1 : d * (m' + 1) - 1 = d - 1 + m' * d := by
      rw [Nat.mul_add, Nat.mul_one, Nat.mul_comm]
      omega
    rw [h1, Nat.add_mul_mod_self_right, Nat.mod_eq_of_lt (by omega)]
    omega

theorem iterEnv_timer (o : ℕ → ℕ → Action) (e : Env)
    (hd : 1 ≤ e.spread_delay) (ht : e.spread_timer = 0) :
    ∀ n, (iterEnv o n e).spread_timer = n % e.spread_delay := by
  intro n
  induction n with
  | zero => rw [show iterEnv o 0 e = e from rfl, ht, Nat.zero_mod]
  | succ n ih =>
      obtain ⟨_, _, htimer⟩ := env_stepWith_proj (o n) (iterEnv o n e)
      have hdel : (iterEnv o n e).spread_delay = e.spread_delay :=
        (iterEnv_proj o n e).1.2.2.2
      rw [show iterEnv o (n+1) e = Env.stepWith (o n) (iterEnv o n e) from rfl,
        htimer, hdel, ih]
      by_cases hc : e.spread_delay ≤ n % e.spread_delay + 1
      · rw [if_pos hc]
        have hdvd : e.spread_delay ∣ (n + 1) :=
          (mod_pred_succ_dvd hd (by omega)).mp
            (by rw [Nat.add_sub_cancel]; exact hc)
        have h0 : (n + 1) % e.spread_delay = 0 := by
          obtain ⟨m, hm⟩ := hdvd
          rw [hm, Nat.mul_mod_right]
        rw [h0]
      · rw [if_neg hc]
        have hlt : n % e.spread_delay < e.spread_delay := Nat.mod_lt _ (by omega)
        have hdm := Nat.div_add_mod' n e.spread_delay
        have h1 : n + 1 = n % e.spread_delay + 1 +
            n / e.spread_delay * e.spread_delay := by omega
        have hfin : (n % e.spread_delay + 1) % e.spread_delay =
            n % e.spread_delay + 1 := Nat.mod_eq_of_lt (by omega)
        rw [h1, Nat.add_mul_mod_self_right, hfin]

/-- The spread gate of the k-th call to step (1-indexed): the timer,
already bumped by that call and with all agent turns done, has reached
the configured delay. -/
def spreadGateAt (o : ℕ → ℕ → Action) (e : Env) (k : ℕ) : Prop :=
  (Env.agentPhase (o (k - 1)) (iterEnv o (k - 1) e)).spread_delay ≤
    (Env.agentPhase (o (k - 1)) (iterEnv o (k - 1) e)).spread_timer

/-- C6: starting from a fresh timer, the spread event of the k-th step
fires exactly when spread_delay divides k (never earlier than
spread_delay steps after creation or after the previous spread, and
exactly once every spread_delay steps); the timer is reset to 0 by each
spread event; and on a spread event every in-bounds TREE cell within
Euclidean distance at most fire_spread_radius of some current fire cell
(the fire set as of that step's spread moment) is ignited to FIRE. -/
theorem claim_C6 (e : Env) (o : ℕ → ℕ → Action) (hwf : WF e)
    (hr : 1 ≤ e.fire_spread_radius) (hd : 1 ≤ e.spread_delay)
    (ht : e.spread_timer = 0) (k : ℕ) (hk : 1 ≤ k) :
    (spreadGateAt o e k ↔ e.spread_delay ∣ k) ∧
    (e.spread_delay ∣ k → (iterEnv o k e).spread_timer = 0) ∧
    (e.spread_delay ∣ k → ∀ x y, InB (x, y) →
      gridGet (Env.agentPhase (o (k - 1)) (iterEnv o (k - 1) e)).grid x y =
        Cell.tree →
      (∃ q ∈ (Env.agentPhase (o (k - 1)) (iterEnv o (k - 1) e)).fire_cells,
        (x - q.1) ^ 2 + (y - q.2) ^ 2 ≤ e.fire_spread_radius ^ 2) →
      gridGet (iterEnv o k e).grid x y = Cell.fire) := by
  obtain ⟨k', rfl⟩ : ∃ k', k = k' + 1 := ⟨k - 1, by omega⟩
  have hksub : k' + 1 - 1 = k' := by omega
  have hk1 : 1 ≤ k' + 1 := by omega
  obtain ⟨⟨hwB, hhB, hradB, hdelB⟩, hWFgB'⟩ := iterEnv_proj o k' e
  have hWFgB : WFg (iterEnv o k' e).grid := hWFgB' hwf.2.2
  have htB : (iterEnv o k' e).spread_timer = k' % e.spread_delay :=
    iterEnv_timer o e hd ht k'
  obtain ⟨⟨a1, a2, a3, a4, a5⟩, awf⟩ := agentPhase_proj (o k') (iterEnv o k' e)
  have hgate_iff : spreadGateAt o e (k' + 1) ↔ e.spread_delay ∣ (k' + 1) := by
    unfold spreadGateAt
    rw [hksub, a4, a5, hdelB, htB]
    have := mod_pred_succ_dvd hd hk1
    rw [hksub] at this
    exact this
  refine ⟨hgate_iff, ?_, ?_⟩
  · intro hdvd
    obtain ⟨_, _, htimer⟩ := env_stepWith_proj (o k') (iterEnv o k' e)
    have hcond : e.spread_delay ≤ k' % e.spread_delay + 1 := by
      have := (mod_pred_succ_dvd hd hk1).mpr hdvd
      rw [hksub] at this
      exact this
    rw [show iterEnv o (k' + 1) e = Env.stepWith (o k') (iterEnv o k' e) from rfl,
      htimer, hdelB, htB, if_pos hcond]
  · intro hdvd x y hinb htree hnear
    rw [hksub] at htree hnear
    have hgate : (Env.agentPhase (o k') (iterEnv o k' e)).spread_delay ≤
        (Env.agentPhase (o k') (iterEnv o k' e)).spread_timer := by
      have := hgate_iff.mpr hdvd
      unfold spreadGateAt at this
      rw [hksub] at this
      exact this
    have hstep : iterEnv o (k' + 1) e =
        Env.doSpread (Env.agentPhase (o k') (iterEnv o k' e)) := by
      rw [show iterEnv o (k' + 1) e = Env.stepWith (o k') (iterEnv o k' e) from rfl,
        env_stepWith_gate, if_pos hgate]
    set eM := Env.agentPhase (o k') (iterEnv o k' e) with heM
    have hWFM : WF eM := ⟨by rw [a1, hwB, hwf.1], by rw [a2, hhB, hwf.2.1],
      awf hWFgB⟩
    have hrM : 1 ≤ eM.fire_spread_radius := by rw [a3, hradB]; exact hr
    obtain ⟨q, hq, hdist⟩ := hnear
    have hp : (x, y) ∈ eM.treesInRadius q.1 q.2 := by
      apply mem_treesInRadius hWFM hrM hinb htree
      rw [a3, hradB]
      exact hdist
    have hnf : (x, y) ∈ eM.newFires := mem_newFires hq hp
    have hinb_nf : ∀ r ∈ eM.newFires, InB r := by
      intro r hr'
      obtain ⟨q', hq', hr''⟩ := newFires_src hr'
      exact (treesInRadius_mem_inb hWFM hr'').1
    rw [hstep]
    show gridGet ((Env.igniteList { eM with spread_timer := 0 }
      (Env.newFires eM)).grid) x y = Cell.fire
    exact igniteList_fire eM.newFires { eM with spread_timer := 0 }
      hWFM.2.2 hinb_nf (x, y) hnf htree

/-- Concrete environment for the C6 witness: empty 150 by 150 grid,
spread delay 3, fresh timer. -/
def c6Env : Env :=
  { grid_width := 150, grid_height := 150, grid := emptyGrid,
    fire_spread_radius := 3, spread_delay := 3, spread_timer := 0,
    fire_cells := [], agents := [] }

/-- Concrete action oracle for the C6 witness: everyone stays put. -/
def c6Oracle : ℕ → ℕ → Action := fun _ _ => Action.stay

set_option maxRecDepth 10000 in
/-- Witness for C6 at the concrete environment, k = 3 = spread_delay. -/
theorem claim_C6_witness :
    (spreadGateAt c6Oracle c6Env 3 ↔ c6Env.spread_delay ∣ 3) ∧
    (c6Env.spread_delay ∣ 3 → (iterEnv c6Oracle 3 c6Env).spread_timer = 0) ∧
    (c6Env.spread_delay ∣ 3 → ∀ x y, InB (x, y) →
      gridGet (Env.agentPhase (c6Oracle (3 - 1))
        (iterEnv c6Oracle (3 - 1) c6Env)).grid x y = Cell.tree →
      (∃ q ∈ (Env.agentPhase (c6Oracle (3 - 1))
          (iterEnv c6Oracle (3 - 1) c6Env)).fire_cells,
        (x - q.1) ^ 2 + (y - q.2) ^ 2 ≤ c6Env.fire_spread_radius ^ 2) →
      gridGet (iterEnv c6Oracle 3 c6Env).grid x y = Cell.fire) :=
  claim_C6 c6Env c6Oracle
    (by unfold WF WFg; exact ⟨rfl, rfl, by decide, by decide⟩)
    (by decide) (by decide) rfl 3 (by decide)

-- The fire-set / grid correspondence invariant (C7).

/-- The state invariant: well-formed dimensions, every fire-set member
in bounds, the fire set in 1:1 correspondence with the FIRE cells of the
grid, and no duplicates. -/
def Inv (e : Env) : Prop :=
  WF e ∧ (∀ p ∈ e.fire_cells, InB p) ∧
  (∀ x y, InB (x, y) → ((x, y) ∈ e.fire_cells ↔ gridGet e.grid x y = Cell.fire)) ∧
  e.fire_cells.Nodup

/-- Replacing the grid by one with the same fire cells (and the same
dimensions) preserves the invariant; the agent list may change too. -/
theorem inv_grid_update {e : Env} (hInv : Inv e) (g' : Grid) (ags : List Agent)
    (hWFg' : WFg g')
    (hiff : ∀ u v, gridGet g' u v = Cell.fire ↔ gridGet e.grid u v = Cell.fire) :
    Inv { e with grid := g', agents := ags } := by
  obtain ⟨⟨hw, hh, _⟩, hmem, hfi, hnd⟩ := hInv
  refine ⟨⟨hw, hh, hWFg'⟩, hmem, ?_, hnd⟩
  intro x y hin
  show (x, y) ∈ e.fire_cells ↔ gridGet g' x y = Cell.fire
  exact (hfi x y hin).trans (hiff x y).symm

theorem igniteTree_inv {e : Env} (hInv : Inv e) {x y : ℤ} (hin : InB (x, y)) :
    Inv (e.igniteTree x y) := by
  obtain ⟨⟨hw, hh, hWFg⟩, hmem, hfi, hnd⟩ := hInv
  unfold Env.igniteTree
  by_cases ht : gridGet e.grid x y = Cell.tree
  · rw [if_pos ht]
    have hnotmem : (x, y) ∉ e.fire_cells := by
      intro hmem'
      have := (hfi x y hin).mp hmem'
      rw [ht] at this
      cases this
    rw [if_neg hnotmem]
    refine ⟨⟨hw, hh, WFg_gridSet hWFg x y Cell.fire⟩, ?_, ?_, ?_⟩
    · intro p hp
      rcases List.mem_cons.mp hp with h | h
      · rw [h]; exact hin
      · exact hmem p h
    · intro u v hin'
      show (u, v) ∈ (x, y) :: e.fire_cells ↔
        gridGet (gridSet e.grid x y Cell.fire) u v = Cell.fire
      by_cases heq : (u, v) = (x, y)
      · constructor
        · intro _
          have hx : u = x := congrArg Prod.fst heq
          have hy : v = y := congrArg Prod.snd heq
          rw [hx, hy]
          exact gridGet_set_same hWFg.1 hWFg.2 hin Cell.fire
        · intro _
          rw [heq]
          exact List.mem_cons_self _ _
      · constructor
        · intro hm
          rcases List.mem_cons.mp hm with h | h
          · exact absurd h heq
          · rw [gridGet_set_ne hWFg.1 hWFg.2 hin hin' heq Cell.fire]
            exact (hfi u v hin').mp h
        · intro hf
          rw [gridGet_set_ne hWFg.1 hWFg.2 hin hin' heq Cell.fire] at hf
          exact List.mem_cons_of_mem _ ((hfi u v hin').mpr hf)
    · exact List.Nodup.cons hnotmem hnd
  · rw [if_neg ht]
    exact ⟨⟨hw, hh, hWFg⟩, hmem, hfi, hnd⟩

theorem extinguish_inv {e : Env} (hInv : Inv e) (x y : ℤ) :
    Inv (e.extinguish x y).2 := by
  obtain ⟨⟨hw, hh, hWFg⟩, hmem, hfi, hnd⟩ := hInv
  unfold Env.extinguish
  by_cases hm : (x, y) ∈ e.fire_cells
  · rw [if_pos hm]
    have hin : InB (x, y) := hmem _ hm
    refine ⟨⟨hw, hh, WFg_gridSet hWFg x y Cell.empty⟩, ?_, ?_, hnd.erase _⟩
    · intro p hp
      exact hmem p (List.mem_of_mem_erase hp)
    · intro u v hin'
      show (u, v) ∈ e.fire_cells.erase (x, y) ↔
        gridGet (gridSet e.grid x y Cell.empty) u v = Cell.fire
      by_cases heq : (u, v) = (x, y)
      · constructor
        · intro hm'
          exact absurd heq ((List.Nodup.mem_erase_iff hnd).mp hm').1
        · intro hf
          have hx : u = x := congrArg Prod.fst heq
          have hy : v = y := congrArg Prod.snd heq
          rw [hx, hy, gridGet_set_same hWFg.1 hWFg.2 hin Cell.empty] at hf
          cases hf
      · rw [gridGet_set_ne hWFg.1 hWFg.2 hin hin' heq Cell.empty]
        rw [List.mem_erase_of_ne heq]
        exact hfi u v hin'
  · rw [if_neg hm]
    exact ⟨⟨hw, hh, hWFg⟩, hmem, hfi, hnd⟩

theorem extinguishSweep_inv (x y r : ℤ) :
    ∀ (fires : List (ℤ × ℤ)) (e : Env) (racc : ℚ) (cnt : ℕ) (flag : Bool),
      Inv e → Inv (Agent.extinguishSweep x y r e fires racc cnt flag).1 := by
  intro fires
  induction fires with
  | nil => intro e racc cnt flag h; exact h
  | cons f rest ih =>
      intro e racc cnt flag h
      unfold Agent.extinguishSweep
      by_cases hok : (e.extinguish f.1 f.2).1 = true
      · rw [if_pos hok]
        exact ih _ _ _ _ (extinguish_inv h f.1 f.2)
      · rw [if_neg hok]
        exact ih _ _ _ _ (extinguish_inv h f.1 f.2)

theorem agent_stepWith_inv (a : Action) {e : Env} (ag : Agent) (hInv : Inv e) :
    Inv (Agent.stepWith a e ag).1 := by
  rw [agent_stepWith_env]
  cases a with
  | extinguish => exact extinguishSweep_inv _ _ _ _ _ _ _ _ hInv
  | up => exact hInv
  | down => exact hInv
  | left => exact hInv
  | right => exact hInv
  | stay => exact hInv

theorem turnsFold_inv (acts : ℕ → Action) :
    ∀ (l : List Agent) (e : Env) (i : ℕ), Inv e →
      Inv (Env.turnsFold acts e l i).1 := by
  intro l
  induction l with
  | nil => intro e i h; exact h
  | cons a rest ih =>
      intro e i h
      exact ih (Agent.stepWith (acts i) e a).1 (i + 1)
        (agent_stepWith_inv (acts i) a h)

theorem gridSet_no_fire {g : Grid} {x y : ℤ} {c : Cell} (hc : c ≠ Cell.fire)
    (u v : ℤ) (hold : gridGet g u v ≠ Cell.fire) :
    gridGet (gridSet g x y c) u v ≠ Cell.fire := by
  rw [gridGet_gridSet]
  by_cases hcond : (gridResolve g x y).isSome = true ∧
      gridResolve g u v = gridResolve g x y
  · rw [if_pos hcond]; exact hc
  · rw [if_neg hcond]; exact hold

theorem clearMarks_inv {e : Env} (hInv : Inv e) : Inv (Env.clearMarks e) := by
  have hfold := foldl_preserves
    (P := fun g => WFg g ∧
      ∀ u v, gridGet g u v = Cell.fire ↔ gridGet e.grid u v = Cell.fire)
    (f := fun g (a : Agent) =>
      if gridGet g a.x a.y = Cell.agentMark then gridSet g a.x a.y Cell.empty
      else g)
    ?_ e.agents e.grid ⟨hInv.1.2.2, fun _ _ => Iff.rfl⟩
  · exact inv_grid_update hInv _ e.agents hfold.1 hfold.2
  · intro g a ⟨hg, hiff⟩
    dsimp only
    by_cases hc : gridGet g a.x a.y = Cell.agentMark
    · rw [if_pos hc]
      refine ⟨WFg_gridSet hg a.x a.y Cell.empty, fun u v => ?_⟩
      exact (gridGet_set_preserves_fire (by intro h; cases h)
        (by rw [hc]; intro h; cases h) u v).trans (hiff u v)
    · rw [if_neg hc]
      exact ⟨hg, hiff⟩

theorem markOccupancy_inv {e : Env} (hInv : Inv e) :
    Inv (Env.markOccupancy e) := by
  have hfold := foldl_preserves
    (P := fun g => WFg g ∧
      ∀ u v, gridGet g u v = Cell.fire ↔ gridGet e.grid u v = Cell.fire)
    (f := fun g (a : Agent) =>
      if e.in_bounds a.x a.y = true ∧ gridGet g a.x a.y = Cell.empty then
        gridSet g a.x a.y Cell.agentMark
      else g)
    ?_ e.agents e.grid ⟨hInv.1.2.2, fun _ _ => Iff.rfl⟩
  · exact inv_grid_update hInv _ e.agents hfold.1 hfold.2
  · intro g a ⟨hg, hiff⟩
    dsimp only
    by_cases hc : (e.in_bounds a.x a.y = true ∧ gridGet g a.x a.y = Cell.empty)
    · rw [if_pos hc]
      refine ⟨WFg_gridSet hg a.x a.y Cell.agentMark, fun u v => ?_⟩
      exact (gridGet_set_preserves_fire (by intro h; cases h)
        (by rw [hc.2]; intro h; cases h) u v).trans (hiff u v)
    · rw [if_neg hc]
      exact ⟨hg, hiff⟩

theorem inv_timer_agents {e : Env} (hInv : Inv e) (t : ℕ) (ags : List Agent) :
    Inv { e with spread_timer := t, agents := ags } := by
  obtain ⟨⟨hw, hh, hg⟩, hmem, hfi, hnd⟩ := hInv
  exact ⟨⟨hw, hh, hg⟩, hmem, hfi, hnd⟩

theorem agentPhase_inv (acts : ℕ → Action) {e : Env} (hInv : Inv e) :
    Inv (Env.agentPhase acts e) := by
  unfold Env.agentPhase
  apply markOccupancy_inv
  have h1 : Inv (Env.clearMarks { e with spread_timer := e.spread_timer + 1 }) :=
    clearMarks_inv (inv_timer_agents hInv _ e.agents)
  have h2 := turnsFold_inv acts
    (Env.clearMarks { e with spread_timer := e.spread_timer + 1 }).agents
    (Env.clearMarks { e with spread_timer := e.spread_timer + 1 }) 0 h1
  exact inv_timer_agents h2 _ _

theorem igniteList_inv (l : List (ℤ × ℤ)) :
    ∀ (e : Env), Inv e → (∀ q ∈ l, InB q) → Inv (e.igniteList l) := by
  induction l with
  | nil => intro e h _; exact h
  | cons q rest ih =>
      intro e h hq
      have hqi : InB q := hq q (List.mem_cons_self q rest)
      have hqi' : InB (q.1, q.2) := hqi
      exact ih (e.igniteTree q.1 q.2) (igniteTree_inv h hqi')
        (fun r hr => hq r (List.mem_cons_of_mem q hr))

theorem doSpread_inv {e : Env} (hInv : Inv e) : Inv (Env.doSpread e) := by
  unfold Env.doSpread
  apply igniteList_inv
  · exact inv_timer_agents hInv 0 e.agents
  · intro q hq
    obtain ⟨q', _, hq''⟩ := newFires_src hq
    exact (treesInRadius_mem_inb hInv.1 hq'').1

theorem env_stepWith_inv (acts : ℕ → Action) {e : Env} (hInv : Inv e) :
    Inv (Env.stepWith acts e) := by
  rw [env_stepWith_gate]
  by_cases hgate : (Env.agentPhase acts e).spread_delay ≤
      (Env.agentPhase acts e).spread_timer
  · rw [if_pos hgate]
    exact doSpread_inv (agentPhase_inv acts hInv)
  · rw [if_neg hgate]
    exact agentPhase_inv acts hInv

/-- A successful unguarded read returns exactly the cell `gridGet`
reads (the wrap-aware resolution is shared). -/
theorem pyRead_gridGet {g : Grid} {x y : ℤ} {c : Cell}
    (h : (pyListGet g y).bind (fun row => pyListGet row x) = some c) :
    gridGet g x y = c := by
  unfold pyListGet at h
  cases hwy : wrapIdx g.length y with
  | none => rw [hwy] at h; simp at h
  | some ry =>
      rw [hwy] at h
      simp only [Option.some_bind] at h
      have hry : ry < g.length := wrapIdx_lt hwy
      rw [List.getElem?_eq_getElem hry] at h
      simp only [Option.some_bind] at h
      cases hwx : wrapIdx (g[ry]).length x with
      | none => rw [hwx] at h; simp at h
      | some rx =>
          rw [hwx] at h
          simp only [Option.some_bind] at h
          have hrx : rx < g[ry].length := wrapIdx_lt hwx
          rw [List.getElem?_eq_getElem hrx] at h
          injection h with h
          unfold gridGet gridResolve
          have hgetD : g.getD ry [] = g[ry] := by
            simp [List.getD_eq_getElem?_getD, List.getElem?_eq_getElem hry]
          rw [hwy]
          simp only [Option.some_bind]
          rw [hgetD, hwx]
          simp only [Option.map_some']
          rw [hgetD]
          rw [show (g[ry]).getD rx Cell.empty = g[ry][rx] from by
            simp [List.getD_eq_getElem?_getD, List.getElem?_eq_getElem hrx]]
          exact h

theorem addAgent_inv {e : Env} {a : Agent} {e' : Env}
    (h : e.addAgent a = some e') (hInv : Inv e) : Inv e' := by
  unfold Env.addAgent at h
  cases hread : (pyListGet e.grid a.y).bind (fun row => pyListGet row a.x) with
  | none => rw [hread] at h; cases h
  | some c =>
      rw [hread] at h
      dsimp only at h
      have hc := pyRead_gridGet hread
      by_cases hce : c = Cell.empty
      · rw [if_pos hce] at h
        injection h with h
        subst h
        apply inv_grid_update hInv _ _
          (WFg_gridSet hInv.1.2.2 a.x a.y Cell.agentMark)
        intro u v
        exact gridGet_set_preserves_fire (by intro h'; cases h')
          (by rw [hc, hce]; intro h'; cases h') u v
      · rw [if_neg hce] at h
        cases hrel : e.relocationTarget a.x a.y with
        | some p =>
            rw [hrel] at h
            injection h with h
            subst h
            have hpred := List.find?_some
              (by
                unfold Env.relocationTarget at hrel
                rw [findSome?_find?_flatMap] at hrel
                exact hrel)
            rw [Bool.and_eq_true] at hpred
            have hempty : gridGet e.grid p.1 p.2 = Cell.empty :=
              of_decide_eq_true hpred.2
            apply inv_grid_update hInv _ _
              (WFg_gridSet hInv.1.2.2 p.1 p.2 Cell.agentMark)
            intro u v
            exact gridGet_set_preserves_fire (by intro h'; cases h')
              (by rw [hempty]; intro h'; cases h') u v
        | none =>
            rw [hrel] at h
            injection h with h
            subst h
            exact hInv

theorem emptyGrid_get (u v : ℤ) :
    gridGet (List.replicate 150 (List.replicate 150 Cell.empty)) u v =
      Cell.empty := by
  unfold gridGet
  cases hr : gridResolve (List.replicate 150 (List.replicate 150 Cell.empty)) u v with
  | none => rfl
  | some p =>
      obtain ⟨rx, ry⟩ := p
      dsimp only
      by_cases hry : ry < 150
      · have h1 : (List.replicate 150 (List.replicate 150 Cell.empty)).getD ry [] =
            List.replicate 150 Cell.empty := by
          rw [List.getD_eq_getElem?_getD, List.getElem?_replicate]
          rw [if_pos hry]
          rfl
        rw [h1]
        by_cases hrx : rx < 150
        · rw [List.getD_eq_getElem?_getD, List.getElem?_replicate, if_pos hrx]
          rfl
        · rw [List.getD_eq_getElem?_getD, List.getElem?_replicate, if_neg hrx]
          rfl
      · have h1 : (List.replicate 150 (List.replicate 150 Cell.empty)).getD ry [] =
            [] := by
          rw [List.getD_eq_getElem?_getD, List.getElem?_replicate, if_neg hry]
          rfl
        rw [h1]
        rfl

theorem emptyGrid_WFg : WFg (List.replicate 150 (List.replicate 150 Cell.empty)) := by
  constructor
  · exact List.length_replicate 150 _
  · intro r hr
    rw [List.eq_of_mem_replicate hr]
    exact List.length_replicate 150 _

theorem placeTreesGo_no_fire (target : ℕ) :
    ∀ (order : List (ℤ × ℤ)) (g : Grid) (placed : ℕ), WFg g →
      (∀ u v, gridGet g u v ≠ Cell.fire) →
      WFg (Env.placeTreesGo target g order placed) ∧
      ∀ u v, gridGet (Env.placeTreesGo target g order placed) u v ≠ Cell.fire := by
  intro order
  induction order with
  | nil => intro g placed hg hnf; exact ⟨hg, hnf⟩
  | cons p rest ih =>
      intro g placed hg hnf
      unfold Env.placeTreesGo
      by_cases hdone : target ≤ placed
      · rw [if_pos hdone]
        exact ⟨hg, hnf⟩
      · rw [if_neg hdone]
        by_cases hcan : Env.canPlaceTree g p.1 p.2 = true
        · rw [if_pos hcan]
          exact ih (gridSet g p.1 p.2 Cell.tree) (placed + 1)
            (WFg_gridSet hg p.1 p.2 Cell.tree)
            (fun u v => gridSet_no_fire (by intro h; cases h) u v (hnf u v))
        · rw [if_neg hcan]
          exact ih g placed hg hnf

theorem treeLocations_inb (e : Env) : ∀ p ∈ Env.treeLocations e, InB p := by
  intro p hp
  unfold Env.treeLocations at hp
  obtain ⟨y, hy, hp2⟩ := List.mem_flatMap.mp hp
  obtain ⟨x, hx, hcond⟩ := List.mem_filterMap.mp hp2
  have hyb := mem_intRange.mp hy
  have hxb := mem_intRange.mp hx
  by_cases hc : gridGet e.grid x y = Cell.tree
  · rw [if_pos hc] at hcond
    injection hcond with hcond
    subst hcond
    unfold GRID_SIZE at hyb hxb
    exact ⟨hxb.1, hxb.2, hyb.1, hyb.2⟩
  · rw [if_neg hc] at hcond
    cases hcond

theorem startFiresGo_inv (numTarget : ℕ) (locs : List (ℤ × ℤ))
    (hlocs : ∀ p ∈ locs, InB p) :
    ∀ (picks : List ℕ) (e : Env) (attempts : ℕ) (selected : List (ℤ × ℤ)),
      Inv e → Inv (Env.startFiresGo numTarget locs e picks attempts selected) := by
  intro picks
  induction picks with
  | nil => intro e attempts selected h; exact h
  | cons k rest ih =>
      intro e attempts selected h
      unfold Env.startFiresGo
      by_cases hguard : (selected.length < numTarget ∧ attempts < 100)
      · rw [if_pos hguard]
        have hinp : InB (locs.getD (k % locs.length) (0, 0)) := by
          rw [List.getD_eq_getElem?_getD]
          by_cases hlen : k % locs.length < locs.length
          · rw [List.getElem?_eq_getElem hlen]
            exact hlocs _ (List.getElem_mem hlen)
          · rw [List.getElem?_eq_none (by omega)]
            show InB ((0 : ℤ), (0 : ℤ))
            decide
        by_cases hfar : decide (∀ s ∈ selected,
            e.fire_spread_radius ^ 2 <
              ((locs.getD (k % locs.length) (0, 0)).1 - s.1) ^ 2 +
              ((locs.getD (k % locs.length) (0, 0)).2 - s.2) ^ 2) = true
        · rw [if_pos hfar]
          exact ih _ _ _ (igniteTree_inv h hinp)
        · rw [if_neg hfar]
          exact ih _ _ _ h
      · rw [if_neg hguard]
        exact h

theorem create_inv (density : ℚ) (radius delay : ℤ) (order : List (ℤ × ℤ))
    (picks : List ℕ) : Inv (Env.create density radius delay order picks) := by
  unfold Env.create Env.startFires
  dsimp only
  apply startFiresGo_inv _ _ (treeLocations_inb _)
  obtain ⟨hwfg, hnf⟩ := placeTreesGo_no_fire
    ((⌊(150 : ℚ) * 150 * density⌋).toNat) order
    (List.replicate 150 (List.replicate 150 Cell.empty)) 0
    emptyGrid_WFg (fun u v => by rw [emptyGrid_get]; intro h; cases h)
  refine ⟨⟨rfl, rfl, hwfg⟩, ?_, ?_, List.nodup_nil⟩
  · intro p hp
    cases hp
  · intro x y _
    constructor
    · intro hm
      cases hm
    · intro hf
      exact absurd hf (hnf x y)

/-- The states reachable from environment construction through the
public operations: step, add_agent (when it returns), extinguish. -/
inductive Reachable : Env → Prop
  | init (density : ℚ) (radius delay : ℤ) (order : List (ℤ × ℤ))
      (picks : List ℕ) (horder : order.Perm Env.allPositions) :
      Reachable (Env.create density radius delay order picks)
  | step (e : Env) (acts : ℕ → Action) : Reachable e →
      Reachable (Env.stepWith acts e)
  | add (e : Env) (a : Agent) (e' : Env) : Reachable e →
      e.addAgent a = some e' → Reachable e'
  | ext (e : Env) (x y : ℤ) : Reachable e → Reachable (e.extinguish x y).2

theorem reachable_inv {e : Env} (h : Reachable e) : Inv e := by
  induction h with
  | init density radius delay order picks horder =>
      exact create_inv density radius delay order picks
  | step e acts _ ih => exact env_stepWith_inv acts ih
  | add e a e' _ hadd ih => exact addAgent_inv hadd ih
  | ext e x y _ ih => exact extinguish_inv ih x y

/-- C7: in every state reachable from construction through the public
operations, the fire set and the FIRE-marked grid cells are in 1:1
correspondence: a coordinate is in fire_cells iff its grid cell holds
FIRE, every fire-set member is an in-bounds cell, and the set has no
duplicates. -/
theorem claim_C7 (e : Env) (hreach : Reachable e) :
    (∀ x y, InB (x, y) →
      ((x, y) ∈ e.fire_cells ↔ gridGet e.grid x y = Cell.fire)) ∧
    (∀ p ∈ e.fire_cells, InB p) ∧ e.fire_cells.Nodup := by
  obtain ⟨_, hmem, hfi, hnd⟩ := reachable_inv hreach
  exact ⟨hfi, hmem, hnd⟩

-- C10: an environment can be born engulfed with fires still burning.

/-- Concrete construction: density 1/22500 (one tree on the 150 by 150
grid), identity shuffle, draw indices all 0. -/
def c10Env : Env := Env.create (1 / 22500) 3 30 Env.allPositions [0, 0, 0, 0, 0]

theorem c10_env_eq : c10Env = Env.startFires
    { grid_width := GRID_SIZE
      grid_height := GRID_SIZE
      grid := Env.placeTreesGo 1
        (List.replicate 150 (List.replicate 150 Cell.empty)) Env.allPositions 0
      fire_spread_radius := max 1 (min 3 5)
      spread_delay := ((max 1 30 : ℤ)).toNat
      spread_timer := 0
      fire_cells := []
      agents := [] } 5 [0, 0, 0, 0, 0] := by
  unfold c10Env Env.create
  dsimp only
  rw [show ((⌊(150 : ℚ) * 150 * (1 / 22500)⌋).toNat) = 1 from by norm_num]

set_option maxRecDepth 10000 in
set_option maxHeartbeats 8000000 in
theorem c10_key : c10Env.fire_cells = [(0, 0)] ∧ treeCount c10Env.grid = 0 := by
  rw [c10_env_eq]
  decide

/-- C10: with the valid density 1/22500 the constructed environment has
exactly one tree placed at (0,0), which the fire seeding immediately
ignites; straight after construction fire_engulfed() is already true
(zero trees remain, below the 450 threshold) while fire_cells is
non-empty — the termination flag does not imply all fires are out. -/
theorem claim_C10 :
    (0 : ℚ) ≤ 1 / 22500 ∧ (1 / 22500 : ℚ) ≤ 1 ∧
    c10Env.fire_engulfed = true ∧ c10Env.fire_cells = [(0, 0)] := by
  have hInv : Inv c10Env :=
    create_inv (1 / 22500) 3 30 Env.allPositions [0, 0, 0, 0, 0]
  have hkey := c10_key
  refine ⟨by norm_num, by norm_num, ?_, hkey.1⟩
  have hlen : c10Env.grid.length = 150 := hInv.1.2.2.1
  have hne : c10Env.grid ≠ [] := by
    intro hc
    rw [hc] at hlen
    simp at hlen
  rw [fire_engulfed_iff c10Env hne, hkey.2]
  have hw : c10Env.grid_width = 150 := hInv.1.1
  have hh : c10Env.grid_height = 150 := hInv.1.2.1
  rw [hw, hh]
  norm_num

/-- A concrete constructed state for the C7 witness. -/
def c7Env : Env := Env.create (1 / 2) 3 30 Env.allPositions []

/-- Witness for C7: the correspondence instantiated at cell (0,0) of a
concretely constructed environment. -/
theorem claim_C7_witness :
    ((0, 0) ∈ c7Env.fire_cells ↔ gridGet c7Env.grid 0 0 = Cell.fire) ∧
    c7Env.fire_cells.Nodup :=
  ⟨(claim_C7 c7Env (Reachable.init (1 / 2) 3 30 Env.allPositions []
      (List.Perm.refl _))).1 0 0 (by decide),
   (claim_C7 c7Env (Reachable.init (1 / 2) 3 30 Env.allPositions []
      (List.Perm.refl _))).2.2⟩

end Wildfire
